import Mathlib

/-!
Verification of the nbs-rs crate: a codec for the (Open)NoteBlockStudio song
format.  The development below is a shallow embedding of the crate's source:

* byte streams are `List Nat` (each element one byte, little-endian multi-byte
  integers exactly as the `byteorder`-based primitives in `src/io.rs`);
* Rust `i8`/`i16`/`i32` values are `Int`s; writers reduce values modulo the
  width, readers re-interpret the unsigned sum as a signed value;
* fallible operations return a result type; the `.unwrap()` on the layer
  lookup in `NoteBlocks::decode` is modelled by a distinguished `panicked`
  outcome;
* Rust `String` is modelled as its UTF-8 byte list; `String::from_utf8`
  becomes an executable UTF-8 validity check;
* `HashMap<i16, Note>` is modelled as an association list with unique keys;
  every observation the crate makes of it (lookup, membership, maximum key)
  is order-independent.

Where the crate's own files disagree with each other (the `Layer::volume`
field is declared `Option<i8>` but read/written as a plain `i8` by the codec;
`error.rs` names the missing-field error `InvalidTargetFormat` while the other
modules refer to it as `NbsError::InvalidFormat`; `lib.rs` passes `&header` to
`CustomInstruments::decode` which does not take one) the embedding follows the
codec code itself and the comments note the discrepancy.
-/

/-! ## Byte-stream primitives (src/io.rs, byteorder little-endian) -/

abbrev Bytes := List Nat

/-- Reinterpret an unsigned `w`-bit value as a signed one (two's complement). -/
def toSigned (w : Nat) (n : Nat) : Int :=
  if n < 2 ^ (w - 1) then (n : Int) else (n : Int) - 2 ^ w

/-- Reduce an integer into the signed 16-bit range, as Rust `i16` wrapping
arithmetic does. -/
def wrap16 (x : Int) : Int := (x + 32768) % 65536 - 32768

/-- Reduce an integer into the signed 8-bit range. -/
def wrap8 (x : Int) : Int := (x + 128) % 256 - 128

def readU8 : Bytes → Option (Nat × Bytes)
  | [] => none
  | b :: s => some (b, s)

/-- `read_i8` -/
def readI8 (s : Bytes) : Option (Int × Bytes) :=
  (readU8 s).map (fun p => (toSigned 8 p.1, p.2))

/-- `read_i16::<LittleEndian>` -/
def readI16 : Bytes → Option (Int × Bytes)
  | b0 :: b1 :: s => some (toSigned 16 (b0 + 256 * b1), s)
  | _ => none

/-- `read_i32::<LittleEndian>` -/
def readI32 : Bytes → Option (Int × Bytes)
  | b0 :: b1 :: b2 :: b3 :: s =>
      some (toSigned 32 (b0 + 256 * b1 + 65536 * b2 + 16777216 * b3), s)
  | _ => none

/-- `write_i8`: the low byte of the value. -/
def i8Bytes (x : Int) : Bytes := [(x % 256).toNat]

/-- `write_i16::<LittleEndian>` -/
def i16Bytes (x : Int) : Bytes :=
  [(x % 65536).toNat % 256, (x % 65536).toNat / 256]

/-- `write_i32::<LittleEndian>` -/
def i32Bytes (x : Int) : Bytes :=
  [(x % 4294967296).toNat % 256, (x % 4294967296).toNat / 256 % 256,
   (x % 4294967296).toNat / 65536 % 256, (x % 4294967296).toNat / 16777216]

/-! ### UTF-8 validity (Rust `String::from_utf8`) -/

def contByte (b : Nat) : Bool := 128 ≤ b && b ≤ 191

def validUtf8 : Bytes → Bool
  | [] => true
  | b :: s =>
    if b ≤ 127 then validUtf8 s
    else if 194 ≤ b && b ≤ 223 then
      match s with
      | c1 :: s1 => contByte c1 && validUtf8 s1
      | [] => false
    else if b = 224 then
      match s with
      | c1 :: c2 :: s1 => (160 ≤ c1 && c1 ≤ 191) && contByte c2 && validUtf8 s1
      | _ => false
    else if (225 ≤ b && b ≤ 236) || (238 ≤ b && b ≤ 239) then
      match s with
      | c1 :: c2 :: s1 => contByte c1 && contByte c2 && validUtf8 s1
      | _ => false
    else if b = 237 then
      match s with
      | c1 :: c2 :: s1 => (128 ≤ c1 && c1 ≤ 159) && contByte c2 && validUtf8 s1
      | _ => false
    else if b = 240 then
      match s with
      | c1 :: c2 :: c3 :: s1 =>
          (144 ≤ c1 && c1 ≤ 191) && contByte c2 && contByte c3 && validUtf8 s1
      | _ => false
    else if 241 ≤ b && b ≤ 243 then
      match s with
      | c1 :: c2 :: c3 :: s1 =>
          contByte c1 && contByte c2 && contByte c3 && validUtf8 s1
      | _ => false
    else if b = 244 then
      match s with
      | c1 :: c2 :: c3 :: s1 =>
          (128 ≤ c1 && c1 ≤ 143) && contByte c2 && contByte c3 && validUtf8 s1
      | _ => false
    else false

/-! ## Errors and decode results -/

/-- `NbsError` from src/error.rs.  `error.rs` declares the missing-field
variant as `InvalidTargetFormat` ("the format to encode with expected some
information that was not given"); the other modules spell it
`NbsError::InvalidFormat`.  We use the `error.rs` name.  The payloads of the
string/io variants are dropped: the crate never inspects them. -/
inductive NbsError where
  | invalidTargetFormat
  | invalidString
  | ioError
deriving DecidableEq, Repr

/-- Result of running a decoder on a byte stream: a value plus the unconsumed
tail, an `NbsError`, or a Rust panic (the `.unwrap()` of a missing layer in
`NoteBlocks::decode`). -/
inductive DRes (α : Type) where
  | ok (value : α) (rest : Bytes)
  | err (e : NbsError)
  | panicked
deriving DecidableEq, Repr

/-- A prefix-consuming decoder. -/
def Decoder (α : Type) : Type := Bytes → DRes α

def Decoder.pure (a : α) : Decoder α := fun s => .ok a s

def Decoder.bind (p : Decoder α) (f : α → Decoder β) : Decoder β := fun s =>
  match p s with
  | .ok a s1 => f a s1
  | .err e => .err e
  | .panicked => .panicked

instance : Monad Decoder where
  pure := Decoder.pure
  bind := Decoder.bind

/-- Lift an `Option` reader, turning end-of-stream into an io error, exactly
as the `?` on the byteorder reads propagates `io::Error`. -/
def liftRead (r : Bytes → Option (α × Bytes)) : Decoder α := fun s =>
  match r s with
  | some (a, s1) => .ok a s1
  | none => .err .ioError

def pI8 : Decoder Int := liftRead readI8
def pI16 : Decoder Int := liftRead readI16
def pI32 : Decoder Int := liftRead readI32

/-- `ok_or` on an `Option`, as used for every version-gated field. -/
def okOr (o : Option α) (e : NbsError) : Except NbsError α :=
  match o with
  | some a => .ok a
  | none => .error e

/-- `read_string` (src/io.rs): a little-endian `i32` length prefix, then that
many bytes, validated as UTF-8.  A negative length becomes a huge `usize` in
the source, whose `read_exact` fails on any finite buffer, hence an io
error. -/
def read_string : Decoder Bytes := fun s =>
  match readI32 s with
  | none => .err .ioError
  | some (len, s1) =>
    if len < 0 then .err .ioError
    else if s1.length < len.toNat then .err .ioError
    else if validUtf8 (s1.take len.toNat) then .ok (s1.take len.toNat) (s1.drop len.toNat)
    else .err .invalidString

def pString : Decoder Bytes := read_string

/-- `write_string` (src/io.rs): `i32` byte length, then the bytes. -/
def write_string (str : Bytes) : Bytes := i32Bytes str.length ++ str

/-- An 8-bit flag read as `read_i8()? == 1`. -/
def pBool : Decoder Bool := (fun x => x == 1) <$> pI8

/-- A version-gated 8-bit field: read when the condition holds, absent
otherwise. -/
def pOptI8 (c : Prop) [Decidable c] : Decoder (Option Int) :=
  if c then some <$> pI8 else Decoder.pure none

/-- A version-gated 16-bit field. -/
def pOptI16 (c : Prop) [Decidable c] : Decoder (Option Int) :=
  if c then some <$> pI16 else Decoder.pure none

/-- A version-gated 8-bit flag field. -/
def pOptBool (c : Prop) [Decidable c] : Decoder (Option Bool) :=
  if c then (fun x => some (x == 1)) <$> pI8 else Decoder.pure none

/-- A version-gated 8-bit flag that leaves a default in place when the
condition fails (the layer table only overwrites `locked` for version ≥ 4). -/
def pOptBoolD (c : Prop) [Decidable c] (d : Option Bool) : Decoder (Option Bool) :=
  if c then (fun x => some (x == 1)) <$> pI8 else Decoder.pure d

/-- A version-gated 8-bit field with a default (the layer table only
overwrites `stereo` for version ≥ 2). -/
def pOptI8D (c : Prop) [Decidable c] (d : Option Int) : Decoder (Option Int) :=
  if c then some <$> pI8 else Decoder.pure d

/-! ## Formats (src/lib.rs) -/

inductive NbsFormat where
  | noteBlockStudio
  | openNoteBlockStudio (v : Int)
deriving DecidableEq, Repr

def NbsFormat.is_new : NbsFormat → Bool
  | .noteBlockStudio => false
  | .openNoteBlockStudio _ => true

def NbsFormat.version : NbsFormat → Int
  | .noteBlockStudio => 0
  | .openNoteBlockStudio v => v

/-- The format-detection read at the top of `Header::decode`: a nonzero old
song length means the legacy format; zero means the version byte follows. -/
def pVersion (old_song_length : Int) : Decoder NbsFormat :=
  if old_song_length ≠ 0 then Decoder.pure NbsFormat.noteBlockStudio
  else NbsFormat.openNoteBlockStudio <$> pI8

/-! ## Header (src/header.rs) -/

structure Header where
  old_song_length : Int
  version_number : Option Int
  vannila_instrument_count : Option Int
  song_length : Option Int
  layer_count : Int
  song_name : Bytes
  song_author : Bytes
  original_song_author : Bytes
  song_description : Bytes
  song_tempo : Int
  auto_saving : Bool
  auto_saving_duration : Int
  time_signature : Int
  minutes_spent : Int
  left_clicks : Int
  right_clicks : Int
  noteblocks_added : Int
  noteblocks_removed : Int
  imported_file_name : Bytes
  is_loop : Option Bool
  max_loop_count : Option Int
  loop_start_tick : Option Int
  format : NbsFormat
deriving DecidableEq, Repr

/-- `Header::decode`.  Note: for every new-format version (not only `≥ 3`)
the source reads the 16-bit `song_length` field — the condition is
`version.is_new()`, with no version comparison. -/
def Header.decode : Decoder Header := do
  let old_song_length ← pI16
  let version ← pVersion old_song_length
  let version_number :=
    match version with
    | .noteBlockStudio => none
    | .openNoteBlockStudio v => some v
  let vannila_instrument_count ← pOptI8 (version.is_new = true)
  let song_length ← pOptI16 (version.is_new = true)
  let layer_count ← pI16
  let song_name ← pString
  let song_author ← pString
  let original_song_author ← pString
  let song_description ← pString
  let song_tempo ← pI16
  let auto_saving ← pBool
  let auto_saving_duration ← pI8
  let time_signature ← pI8
  let minutes_spent ← pI32
  let left_clicks ← pI32
  let right_clicks ← pI32
  let noteblocks_added ← pI32
  let noteblocks_removed ← pI32
  let imported_file_name ← pString
  let is_loop ← pOptBool (version.is_new = true)
  let max_loop_count ← pOptI8 (version.is_new = true)
  let loop_start_tick ← pOptI16 (version.is_new = true)
  Pure.pure
    { old_song_length, version_number, vannila_instrument_count, song_length,
      layer_count, song_name, song_author, original_song_author,
      song_description, song_tempo, auto_saving, auto_saving_duration,
      time_signature, minutes_spent, left_clicks, right_clicks,
      noteblocks_added, noteblocks_removed, imported_file_name, is_loop,
      max_loop_count, loop_start_tick, format := version }

/-- `Header::encode`.  The writer is an in-memory buffer, so writes themselves
never fail; the only failures are the `ok_or(InvalidFormat)` on the
version-gated fields, in source order. -/
def Header.encode (h : Header) (fmt : NbsFormat) : Except NbsError Bytes := do
  let verBytes ←
    if fmt.version > 0 then do
      let vn ← okOr h.version_number .invalidTargetFormat
      let vic ← okOr h.vannila_instrument_count .invalidTargetFormat
      Except.ok (i8Bytes vn ++ i8Bytes vic)
    else Except.ok []
  let slBytes ←
    if fmt.version ≥ 3 then do
      let sl ← okOr h.song_length .invalidTargetFormat
      Except.ok (i16Bytes sl)
    else Except.ok []
  let loopBytes ←
    if fmt.version > 0 then do
      let il ← okOr h.is_loop .invalidTargetFormat
      let mlc ← okOr h.max_loop_count .invalidTargetFormat
      let lst ← okOr h.loop_start_tick .invalidTargetFormat
      Except.ok (i8Bytes (if il then 1 else 0) ++ (i8Bytes mlc ++ i16Bytes lst))
    else Except.ok []
  Except.ok
    (i16Bytes h.old_song_length ++ (verBytes ++ (slBytes ++ (i16Bytes h.layer_count ++
     (write_string h.song_name ++ (write_string h.song_author ++
     (write_string h.original_song_author ++ (write_string h.song_description ++
     (i16Bytes h.song_tempo ++ (i8Bytes (if h.auto_saving then 1 else 0) ++
     (i8Bytes h.auto_saving_duration ++ (i8Bytes h.time_signature ++
     (i32Bytes h.minutes_spent ++ (i32Bytes h.left_clicks ++
     (i32Bytes h.right_clicks ++ (i32Bytes h.noteblocks_added ++
     (i32Bytes h.noteblocks_removed ++ (write_string h.imported_file_name ++
     loopBytes))))))))))))))))))

/-- `Header::vannila_instrument_count` (the method; it shares its name with
the field in the source, which Lean does not allow). -/
def Header.getVannilaInstrumentCount (h : Header) : Except NbsError Int :=
  match h.format with
  | .noteBlockStudio => .ok 10
  | .openNoteBlockStudio _ => okOr h.vannila_instrument_count .invalidTargetFormat

/-- `Header::song_ticks` -/
def Header.getSongTicks (h : Header) : Except NbsError (Option Int) :=
  match h.format with
  | .noteBlockStudio => .ok (some h.old_song_length)
  | .openNoteBlockStudio v =>
    if v ≥ 3 then
      match okOr h.song_length NbsError.invalidTargetFormat with
      | .ok sl => .ok (some sl)
      | .error e => .error e
    else .ok none

/-! ## Instruments and notes (src/noteblocks/instrument.rs, note.rs) -/

/-- `Instrument`.  The source enum lists sixteen named vanilla variants
(`Piano` … `Pling`, with `Into<i8>` ids `0 … 15`) plus `Custom(i8)`, while
`NoteBlocks::decode` builds `Instrument::Vanilla(id)` / `Instrument::Custom(id)`
from the raw id.  We merge the named variants into `vanilla id`, which is
exactly the information `Into<i8>`/`From<i8>` preserve. -/
inductive Instrument where
  | vanilla (id : Int)
  | custom (id : Int)
deriving DecidableEq, Repr

/-- `Into<i8> for Instrument`. -/
def Instrument.toI8 : Instrument → Int
  | .vanilla id => id
  | .custom id => id

/-- The classification performed on every decoded note record:
`if instrument >= header.vannila_instrument_count()? { Custom } else { Vanilla }`. -/
def classifyInstrument (count id : Int) : Instrument :=
  if id ≥ count then .custom id else .vanilla id

structure Note where
  instrument : Instrument
  key : Int
  velocity : Option Int
  panning : Option Int
  pitch : Option Int
deriving DecidableEq, Repr

/-! ### The sparse note map (`HashMap<i16, Note>`) -/

/-- The per-layer note map, keyed by tick.  Association list with unique keys;
`insert` overwrites like `HashMap::insert`. -/
abbrev NMap := List (Int × Note)

def NMap.entries (m : NMap) : List (Int × Note) := m

def NMap.get? (m : NMap) (k : Int) : Option Note :=
  (NMap.entries m |>.find? (fun p => p.1 == k)).map (fun p => p.2)

def NMap.contains_key (m : NMap) (k : Int) : Bool := (NMap.get? m k).isSome

def NMap.insert (m : NMap) (k : Int) (v : Note) : NMap :=
  (k, v) :: (NMap.entries m |>.filter (fun p => p.1 != k))

/-- `notes.iter().max_by(|x, y| x.0.cmp(&y.0))`, on the key: the maximum tick,
or `none` when the map is empty (in which case the source skips the layer). -/
def NMap.maxKey? (m : NMap) : Option Int :=
  (NMap.entries m).foldl
    (fun acc p =>
      match acc with
      | none => some p.1
      | some a => some (max a p.1))
    none

/-! ## Layers (src/noteblocks/layer.rs) -/

/-- `Layer`.  The source declares `volume : Option<i8>` but the codec in
noteblocks/mod.rs reads and writes it as a bare `i8` (the crate's own
"volume always present on the wire" inconsistency); we keep the declared
`Option` type and give the codec the evident reading: decode always fills it
with `some`, encode requires it to be present. -/
structure Layer where
  name : Bytes
  locked : Option Bool
  volume : Option Int
  stereo : Option Int
  notes : NMap
deriving DecidableEq, Repr

def Layer.new : Layer :=
  { name := [], locked := none, volume := none, stereo := none, notes := ([] : List (Int × Note)) }

/-- `Layer::from_format`. -/
def Layer.from_format (fmt : NbsFormat) : Layer :=
  let layer := Layer.new
  let layer := if fmt.version ≥ 4 then { layer with locked := some false } else layer
  let layer :=
    if fmt.version ≥ 2 then { layer with volume := some 100, stereo := some 100 }
    else layer
  layer

/-! ## The note grid (src/noteblocks/mod.rs) -/

structure NoteBlocks where
  layers : List Layer
deriving DecidableEq, Repr

def NoteBlocks.new : NoteBlocks := { layers := [] }

/-- `NoteBlocks::calculate_length`: fold over the layers, taking each
non-empty layer's maximal tick when it exceeds the running length
(initially 0). -/
def NoteBlocks.calculate_length (nb : NoteBlocks) : Int :=
  nb.layers.foldl
    (fun length layer =>
      match NMap.maxKey? layer.notes with
      | some k => if k > length then k else length
      | none => length)
    0

/-- One note record of the grid: instrument id (classified against the
header's vanilla-instrument count, resolved per record as in the source),
key, and for version ≥ 4 velocity, panning and pitch. -/
def decodeNote (header : Header) : Decoder Note := fun s =>
  (do
    let instrumentId ← pI8
    let instrument ←
      match header.getVannilaInstrumentCount with
      | .ok count => Decoder.pure (classifyInstrument count instrumentId)
      | .error e => fun _ => .err e
    let key ← pI8
    let velocity ← pOptI8 (4 ≤ header.format.version)
    let panning ← pOptI8 (4 ≤ header.format.version)
    let pitch ← pOptI16 (4 ≤ header.format.version)
    Decoder.pure
      ({ instrument := instrument, key := key, velocity := velocity,
         panning := panning, pitch := pitch } : Note)) s

/-- `noteblocks.layers.get_mut(layer as usize).unwrap().notes.insert(tick, note)`.
A negative index becomes an astronomically large `usize`, so any index outside
`[0, layers.length)` makes the `unwrap` panic (`none` here). -/
def setNoteAt (layers : List Layer) (idx : Int) (tick : Int) (note : Note) :
    Option (List Layer) :=
  if h : 0 ≤ idx ∧ idx.toNat < layers.length then
    let old := layers.get ⟨idx.toNat, h.2⟩
    some (layers.set idx.toNat { old with notes := NMap.insert old.notes tick note })
  else none

/-- The inner (layer) loop of `NoteBlocks::decode`: read layer jumps and note
records until a zero jump terminates the row.  Fuel bounds the iteration; the
callers always supply more fuel than the stream has bytes, and every
iteration consumes at least four bytes, so the fuel case is unreachable
there (it is mapped to the same io error as end-of-stream). -/
def decodeRow (header : Header) (tick : Int) :
    Nat → List Layer → Int → Bytes → DRes (List Layer)
  | 0, _, _, _ => .err .ioError
  | fuel + 1, layers, layer, s =>
    match readI16 s with
    | none => .err .ioError
    | some (jumps, s1) =>
      if jumps = 0 then .ok layers s1
      else
        let layer1 := wrap16 (layer + jumps)
        match decodeNote header s1 with
        | .err e => .err e
        | .panicked => .panicked
        | .ok note s2 =>
          match setNoteAt layers layer1 tick note with
          | none => .panicked
          | some layers1 => decodeRow header tick fuel layers1 layer1 s2

/-- The outer (tick) loop of `NoteBlocks::decode`: read tick jumps until a
zero jump terminates the grid. -/
def decodeTicks (header : Header) :
    Nat → List Layer → Int → Bytes → DRes (List Layer)
  | 0, _, _, _ => .err .ioError
  | fuel + 1, layers, tick, s =>
    match readI16 s with
    | none => .err .ioError
    | some (jumps, s1) =>
      if jumps = 0 then .ok layers s1
      else
        let tick1 := wrap16 (tick + jumps)
        match decodeRow header tick1 fuel layers (-1) s1 with
        | .err e => .err e
        | .panicked => .panicked
        | .ok layers1 s2 => decodeTicks header fuel layers1 tick1 s2

/-- The trailing layer table of `NoteBlocks::decode`: for each pre-allocated
layer in order, name, lock flag (version ≥ 4), volume, stereo (version ≥ 2). -/
def decodeLayerTable (ver : Int) : List Layer → Decoder (List Layer)
  | [] => Decoder.pure []
  | l :: ls => do
    let name ← pString
    let locked ← pOptBoolD (4 ≤ ver) l.locked
    let volume ← pI8
    let stereo ← pOptI8D (2 ≤ ver) l.stereo
    let rest ← decodeLayerTable ver ls
    Decoder.pure
      ({ l with name := name, locked := locked, volume := some volume,
                stereo := stereo } :: rest)

/-- `NoteBlocks::decode`: pre-allocate `header.layer_count` layers (a negative
count yields an empty loop), run the jump-decoded grid, then the layer
table.  The fuel `s.length + 1` strictly exceeds what the loops can consume. -/
def NoteBlocks.decode (header : Header) : Decoder NoteBlocks := fun s =>
  let layers := List.replicate header.layer_count.toNat (Layer.from_format header.format)
  match decodeTicks header (s.length + 1) layers (-1) s with
  | .err e => .err e
  | .panicked => .panicked
  | .ok layers1 s1 =>
    match decodeLayerTable header.format.version layers1 s1 with
    | .err e => .err e
    | .panicked => .panicked
    | .ok layers2 s2 => .ok { layers := layers2 } s2

/-- The version-gated payload of one encoded note record. -/
def encodeNoteBytes (ver : Int) (note : Note) : Except NbsError Bytes := do
  let extra ←
    if ver ≥ 4 then do
      let v ← okOr note.velocity .invalidTargetFormat
      let p ← okOr note.panning .invalidTargetFormat
      let pt ← okOr note.pitch .invalidTargetFormat
      Except.ok (i8Bytes v ++ (i8Bytes p ++ i16Bytes pt))
    else Except.ok []
  Except.ok (i8Bytes note.instrument.toI8 ++ (i8Bytes note.key ++ extra))

/-- The inner loop of `NoteBlocks::encode` over the layers at one tick:
emit the pending tick jump before the first note found, then a layer jump and
record per note.  Returns the bytes and the final `has_jumped_h` flag.
Rust casts `layer_index as i16` and performs i16 arithmetic, hence the
`wrap16`s. -/
def encodeTickRow (ver : Int) (tick : Int) (hJumps : Int) :
    List Layer → Int → Int → Bool → Except NbsError (Bytes × Bool)
  | [], _, _, hasJumped => .ok ([], hasJumped)
  | l :: ls, li, vCursor, hasJumped =>
    match NMap.get? l.notes tick with
    | none => encodeTickRow ver tick hJumps ls (li + 1) vCursor hasJumped
    | some note => do
      let vJumps := wrap16 (wrap16 li - vCursor)
      let nb ← encodeNoteBytes ver note
      let (restBytes, hj) ←
        encodeTickRow ver tick hJumps ls (li + 1) (wrap16 (vCursor + vJumps)) true
      Except.ok
        ((if hasJumped then [] else i16Bytes hJumps) ++
          (i16Bytes vJumps ++ (nb ++ restBytes)), hj)

/-- The outer loop of `NoteBlocks::encode` over `note_index` in
`0..=calculate_length()` (`remaining` counts the iterations left): emit each
non-empty row followed by its zero terminator; empty rows contribute
nothing. -/
def encodeTicksAux (ver : Int) (layers : List Layer) :
    Nat → Int → Int → Except NbsError Bytes
  | 0, _, _ => .ok []
  | remaining + 1, noteIndex, hCursor => do
    let hJumps := wrap16 (noteIndex - hCursor)
    let (rowBytes, hasJumped) ← encodeTickRow ver noteIndex hJumps layers 0 (-1) false
    let rowAll := if hasJumped then rowBytes ++ i16Bytes 0 else rowBytes
    let hCursor1 := if hasJumped then wrap16 (hCursor + hJumps) else hCursor
    let rest ← encodeTicksAux ver layers remaining (noteIndex + 1) hCursor1
    Except.ok (rowAll ++ rest)

/-- The trailing layer table of `NoteBlocks::encode`. -/
def encodeLayerTable (ver : Int) : List Layer → Except NbsError Bytes
  | [] => .ok []
  | l :: ls => do
    let lockBytes ←
      if ver ≥ 4 then do
        let lk ← okOr l.locked .invalidTargetFormat
        Except.ok (i8Bytes (if lk then 1 else 0))
      else Except.ok []
    let vol ← okOr l.volume .invalidTargetFormat
    let stereoBytes ←
      if ver ≥ 2 then do
        let st ← okOr l.stereo .invalidTargetFormat
        Except.ok (i8Bytes st)
      else Except.ok []
    let rest ← encodeLayerTable ver ls
    Except.ok (write_string l.name ++ (lockBytes ++ (i8Bytes vol ++ (stereoBytes ++ rest))))

/-- `NoteBlocks::encode`: the tick loop runs for `calculate_length() + 1`
indices (0 through the length inclusive), then the final zero tick jump, then
the layer table. -/
def NoteBlocks.encode (nb : NoteBlocks) (fmt : NbsFormat) : Except NbsError Bytes := do
  let grid ← encodeTicksAux fmt.version nb.layers (nb.calculate_length.toNat + 1) 0 (-1)
  let table ← encodeLayerTable fmt.version nb.layers
  Except.ok (grid ++ (i16Bytes 0 ++ table))

/-! ## Custom instruments (src/noteblocks/instrument.rs) -/

structure CustomInstrumentInfo where
  instrument : Instrument
  name : Bytes
  file_name : Bytes
  pitch : Int
  press_key : Bool
deriving DecidableEq, Repr

structure CustomInstruments where
  instruments : List CustomInstrumentInfo
deriving DecidableEq, Repr

def CustomInstruments.new : CustomInstruments := { instruments := [] }

/-- The entry loop of `CustomInstruments::decode`: `id` is the running loop
index (an `i8` in the source); each entry's instrument is hard-coded as
`Instrument::Custom(id + 16)` — the vanilla-instrument count from the header
is not consulted (the source comment reads "we don't want to overlap with
vannila instruments, so we add +16"). -/
def decodeInstrumentList : Nat → Int → Decoder (List CustomInstrumentInfo)
  | 0, _ => Decoder.pure []
  | n + 1, id => do
    let name ← pString
    let file_name ← pString
    let pitch ← pI8
    let pk ← pI8
    let rest ← decodeInstrumentList n (id + 1)
    Decoder.pure
      ({ instrument := Instrument.custom (wrap8 (id + 16)), name := name,
         file_name := file_name, pitch := pitch, press_key := pk == 1 } :: rest)

/-- `CustomInstruments::decode`: an `i8` count then that many entries (a
negative count yields an empty loop).  Note the source signature takes only
the reader; the `&header` argument passed by `Nbs::decode` in lib.rs does not
exist in this definition. -/
def CustomInstruments.decode : Decoder CustomInstruments := do
  let instrument_count ← pI8
  let list ← decodeInstrumentList instrument_count.toNat 0
  Decoder.pure { instruments := list }

/-- `CustomInstruments::encode`: the count (`len() as i8`) then each entry;
entry ids are not persisted. -/
def CustomInstruments.encode (ci : CustomInstruments) : Except NbsError Bytes :=
  .ok (i8Bytes (ci.instruments.length : Int) ++
    (ci.instruments.map (fun ins =>
      write_string ins.name ++ (write_string ins.file_name ++
        (i8Bytes ins.pitch ++ i8Bytes (if ins.press_key then 1 else 0))))).flatten)

/-! ## The song aggregate (src/lib.rs) -/

structure Nbs where
  header : Header
  noteblocks : NoteBlocks
  custom_instruments : CustomInstruments
deriving DecidableEq, Repr

def Nbs.format (n : Nbs) : NbsFormat := n.header.format

def Nbs.from_componets (header : Header) (noteblocks : NoteBlocks)
    (custom_instruments : CustomInstruments) : Nbs :=
  { header := header, noteblocks := noteblocks, custom_instruments := custom_instruments }

/-- `Nbs::update`: recompute the version-appropriate song-length field, the
version number (new format only) and the layer count (`len() as i16`,
hence the `wrap16`). -/
def Nbs.update (n : Nbs) : Nbs :=
  let h := n.header
  let h :=
    if n.format.version ≥ 3 then { h with song_length := some n.noteblocks.calculate_length }
    else if n.format.version = 0 then { h with old_song_length := n.noteblocks.calculate_length }
    else h
  let h :=
    if n.format.version > 0 then { h with version_number := some n.format.version }
    else h
  let h := { h with layer_count := wrap16 (n.noteblocks.layers.length : Int) }
  { n with header := h }

/-- `Nbs::decode`: header, note grid, custom instruments, in sequence. -/
def Nbs.decode : Decoder Nbs := do
  let header ← Header.decode
  let noteblocks ← NoteBlocks.decode header
  let custom_instruments ← CustomInstruments.decode
  Decoder.pure
    { header := header, noteblocks := noteblocks, custom_instruments := custom_instruments }

/-- `Nbs::encode`: header, note grid, custom instruments, all against
`self.format()` (= `header.format`). -/
def Nbs.encode (n : Nbs) : Except NbsError Bytes := do
  let hb ← n.header.encode n.format
  let gb ← n.noteblocks.encode n.format
  let cb ← n.custom_instruments.encode
  Except.ok (hb ++ (gb ++ cb))

/-- `Nbs::song_ticks`. -/
def Nbs.song_ticks (n : Nbs) : Int := n.noteblocks.calculate_length

/-! ## Primitive round-trip lemmas -/

theorem wrap16_eq_self (x : Int) (h1 : -32768 ≤ x) (h2 : x < 32768) : wrap16 x = x := by
  unfold wrap16
  omega

theorem i8Bytes_length (x : Int) : (i8Bytes x).length = 1 := rfl

theorem i16Bytes_length (x : Int) : (i16Bytes x).length = 2 := rfl

theorem i32Bytes_length (x : Int) : (i32Bytes x).length = 4 := rfl

theorem readI8_i8Bytes (x : Int) (r : Bytes) (h1 : -128 ≤ x) (h2 : x < 128) :
    readI8 (i8Bytes x ++ r) = some (x, r) := by
  have hx : 0 ≤ x % 256 := Int.emod_nonneg x (by norm_num)
  have hx2 : x % 256 < 256 := Int.emod_lt_of_pos x (by norm_num)
  unfold i8Bytes readI8 readU8
  simp only [List.cons_append, List.nil_append, Option.map_some', Option.some.injEq,
    Prod.mk.injEq, and_true]
  show toSigned 8 (x % 256).toNat = x
  unfold toSigned
  split <;> omega

theorem readI16_i16Bytes (x : Int) (r : Bytes) (h1 : -32768 ≤ x) (h2 : x < 32768) :
    readI16 (i16Bytes x ++ r) = some (x, r) := by
  have hx : 0 ≤ x % 65536 := Int.emod_nonneg x (by norm_num)
  have hx2 : x % 65536 < 65536 := Int.emod_lt_of_pos x (by norm_num)
  unfold i16Bytes readI16
  simp only [List.cons_append, List.nil_append, Option.some.injEq, Prod.mk.injEq, and_true]
  have hsum : (x % 65536).toNat % 256 + 256 * ((x % 65536).toNat / 256) =
      (x % 65536).toNat := Nat.mod_add_div _ _
  rw [hsum]
  unfold toSigned
  split <;> omega

theorem readI32_i32Bytes (x : Int) (r : Bytes) (h1 : -2147483648 ≤ x) (h2 : x < 2147483648) :
    readI32 (i32Bytes x ++ r) = some (x, r) := by
  have hx : 0 ≤ x % 4294967296 := Int.emod_nonneg x (by norm_num)
  have hx2 : x % 4294967296 < 4294967296 := Int.emod_lt_of_pos x (by norm_num)
  unfold i32Bytes readI32
  simp only [List.cons_append, List.nil_append, Option.some.injEq, Prod.mk.injEq, and_true]
  have hsum : (x % 4294967296).toNat % 256 + 256 * ((x % 4294967296).toNat / 256 % 256) +
      65536 * ((x % 4294967296).toNat / 65536 % 256) +
      16777216 * ((x % 4294967296).toNat / 16777216) = (x % 4294967296).toNat := by
    omega
  rw [hsum]
  unfold toSigned
  split <;> omega

theorem read_string_write_string (str : Bytes) (r : Bytes)
    (hv : validUtf8 str = true) (hl : (str.length : Int) < 2147483648) :
    read_string (write_string str ++ r) = .ok str r := by
  unfold write_string
  rw [List.append_assoc]
  unfold read_string
  rw [readI32_i32Bytes (str.length : Int) (str ++ r) (by omega) hl]
  dsimp only
  have hlen : ((str.length : Int)).toNat = str.length := Int.toNat_natCast _
  rw [if_neg (by omega)]
  rw [hlen]
  rw [if_neg (by simp only [List.length_append]; omega)]
  rw [List.take_left, List.drop_left]
  rw [if_pos hv]

/-! ## Running the decoder monad -/

theorem Decoder.run_bind (p : Decoder α) (f : α → Decoder β) (s : Bytes) :
    (p >>= f) s =
      match p s with
      | .ok a s1 => f a s1
      | .err e => .err e
      | .panicked => .panicked := rfl

theorem Decoder.run_map (f : α → β) (p : Decoder α) (s : Bytes) :
    (f <$> p) s =
      match p s with
      | .ok a s1 => .ok (f a) s1
      | .err e => .err e
      | .panicked => .panicked := by
  show Decoder.bind p _ s = _
  unfold Decoder.bind
  cases p s <;> rfl

theorem Decoder.run_pure (a : α) (s : Bytes) : (Pure.pure a : Decoder α) s = .ok a s := rfl

theorem Decoder.bind_ok {p : Decoder α} {f : α → Decoder β} {s s1 : Bytes} {a : α}
    (h : p s = .ok a s1) : (p >>= f) s = f a s1 := by
  rw [Decoder.run_bind, h]

theorem Decoder.map_ok {p : Decoder α} {f : α → β} {s s1 : Bytes} {a : α}
    (h : p s = .ok a s1) : (f <$> p) s = .ok (f a) s1 := by
  rw [Decoder.run_map, h]

theorem pI8_ok (x : Int) (r : Bytes) (h1 : -128 ≤ x) (h2 : x < 128) :
    pI8 (i8Bytes x ++ r) = .ok x r := by
  unfold pI8 liftRead
  rw [readI8_i8Bytes x r h1 h2]

theorem pI16_ok (x : Int) (r : Bytes) (h1 : -32768 ≤ x) (h2 : x < 32768) :
    pI16 (i16Bytes x ++ r) = .ok x r := by
  unfold pI16 liftRead
  rw [readI16_i16Bytes x r h1 h2]

theorem pI32_ok (x : Int) (r : Bytes) (h1 : -2147483648 ≤ x) (h2 : x < 2147483648) :
    pI32 (i32Bytes x ++ r) = .ok x r := by
  unfold pI32 liftRead
  rw [readI32_i32Bytes x r h1 h2]

theorem pString_ok (str : Bytes) (r : Bytes)
    (hv : validUtf8 str = true) (hl : (str.length : Int) < 2147483648) :
    pString (write_string str ++ r) = .ok str r :=
  read_string_write_string str r hv hl

/-! ## Example songs and headers used in concrete statements -/

/-- A version-4 extended header with one layer and the editor's defaults. -/
def exampleHeader4 : Header :=
  { old_song_length := 0, version_number := some 4, vannila_instrument_count := some 16,
    song_length := some 0, layer_count := 1, song_name := [], song_author := [],
    original_song_author := [], song_description := [], song_tempo := 1000,
    auto_saving := false, auto_saving_duration := 0, time_signature := 4,
    minutes_spent := 0, left_clicks := 0, right_clicks := 0, noteblocks_added := 0,
    noteblocks_removed := 0, imported_file_name := [], is_loop := some false,
    max_loop_count := some 0, loop_start_tick := some 0,
    format := NbsFormat.openNoteBlockStudio 4 }

/-- A legacy-format header (old song length 5, no new-format fields). -/
def exampleHeaderLegacy : Header :=
  { exampleHeader4 with
    old_song_length := 5,
    version_number := none,
    vannila_instrument_count := none,
    song_length := none,
    is_loop := none,
    max_loop_count := none,
    loop_start_tick := none,
    format := NbsFormat.noteBlockStudio }

/-- The legacy header with zero pre-allocated layers. -/
def exampleHeaderLegacy0 : Header := { exampleHeaderLegacy with layer_count := 0 }

/-! ## C2: the song-length field versus the version byte -/

/-- A byte stream for a version-2 extended header that carries a 16-bit value
`7` right after the vanilla-instrument count and `3` as its layer count. -/
def exampleV2HeaderBytes : Bytes :=
  [0, 0, 2, 16, 7, 0, 3, 0] ++
  ([0, 0, 0, 0] ++ ([0, 0, 0, 0] ++ ([0, 0, 0, 0] ++ ([0, 0, 0, 0] ++
   ([232, 3] ++ ([0] ++ ([0] ++ ([4] ++
   ([0, 0, 0, 0] ++ ([0, 0, 0, 0] ++ ([0, 0, 0, 0] ++ ([0, 0, 0, 0] ++ ([0, 0, 0, 0] ++
   ([0, 0, 0, 0] ++ ([0] ++ ([0] ++ [0, 0]))))))))))))))))

/-- The header the source's decoder produces from that stream. -/
def exampleV2DecodedHeader : Header :=
  { exampleHeader4 with
    version_number := some 2,
    song_length := some 7,
    layer_count := 3,
    format := NbsFormat.openNoteBlockStudio 2 }

/-- C2: the claim says the decoder consumes the explicit 16-bit song-length
field only when the version byte is ≥ 3, and that versions 1 and 2 consume no
such field.  The source's `Header::decode` gates that read on
`version.is_new()` alone, so a version-2 stream has two bytes consumed as
`song_length`: on the stream above the decoder returns `song_length = some 7`
and `layer_count = 3` from the bytes following those two.  (Encode, by
contrast, writes the field only for version ≥ 3, as the field's own doc
comment prescribes.) -/
theorem header_decode_v2_consumes_song_length :
    Header.decode exampleV2HeaderBytes = .ok exampleV2DecodedHeader [] ∧
    exampleV2DecodedHeader.song_length = some 7 := by
  constructor
  · decide
  · rfl

/-! ## C3: custom-instrument ids -/

/-- A custom-instrument table with one entry (empty name and file name, pitch
0, press-key 0). -/
def exampleCustomTableBytes : Bytes := [1, 0, 0, 0, 0, 0, 0, 0, 0, 0, 0]

/-- C3: the claim says the entry at loop index `i` gets instrument id
`i + vanilla_instrument_count` (10 for legacy format).  The source hard-codes
`Instrument::Custom(id + 16)`: on a one-entry table the first entry decodes
with id 16, while the legacy vanilla-instrument count resolved from the
header is 10 — so under the claim it would have to be id 10. -/
theorem customInstruments_decode_hardcodes_16 :
    CustomInstruments.decode exampleCustomTableBytes =
      .ok { instruments := [{ instrument := Instrument.custom 16,
                              name := [],
                              file_name := [],
                              pitch := 0,
                              press_key := false }] } [] ∧
    exampleHeaderLegacy.getVannilaInstrumentCount = .ok 10 ∧
    Instrument.custom 16 ≠ Instrument.custom 10 := by
  refine ⟨by decide, rfl, by decide⟩

/-! ## C8: the vanilla/custom instrument boundary -/

def exampleNoteVanilla15 : Note :=
  { instrument := Instrument.vanilla 15, key := 0, velocity := some 100,
    panning := some 100, pitch := some 0 }

def exampleNoteCustom16 : Note :=
  { instrument := Instrument.custom 16, key := 0, velocity := some 100,
    panning := some 100, pitch := some 0 }

def exampleNoteCustom10 : Note :=
  { instrument := Instrument.custom 10, key := 0, velocity := none,
    panning := none, pitch := none }

/-- C8: a note-record instrument id strictly below the header's resolved
vanilla-instrument count is classified vanilla, an id at or above it custom
with that id: in general for `classifyInstrument` (the exact comparison the
note decoder performs), and concretely through `decodeNote` — with an
extended count of 16, id 15 is vanilla and id 16 is custom 16; under a
legacy header (count 10), id 10 is custom 10. -/
theorem instrument_boundary_classification :
    (∀ count id : Int,
      (id < count → classifyInstrument count id = .vanilla id) ∧
      (count ≤ id → classifyInstrument count id = .custom id)) ∧
    decodeNote exampleHeader4 [15, 0, 100, 100, 0, 0] = .ok exampleNoteVanilla15 [] ∧
    decodeNote exampleHeader4 [16, 0, 100, 100, 0, 0] = .ok exampleNoteCustom16 [] ∧
    decodeNote exampleHeaderLegacy [10, 0] = .ok exampleNoteCustom10 [] := by
  refine ⟨fun count id => ⟨fun hlt => ?_, fun hge => ?_⟩, by decide, by decide, by decide⟩
  · unfold classifyInstrument
    rw [if_neg (by omega)]
  · unfold classifyInstrument
    rw [if_pos (by omega)]

/-- Witness for C8 at the three boundary instances. -/
theorem instrument_boundary_classification_witness :
    classifyInstrument 16 15 = .vanilla 15 ∧
    classifyInstrument 16 16 = .custom 16 ∧
    classifyInstrument 10 10 = .custom 10 :=
  ⟨(instrument_boundary_classification.1 16 15).1 (by norm_num),
   (instrument_boundary_classification.1 16 16).2 (by norm_num),
   (instrument_boundary_classification.1 10 10).2 (by norm_num)⟩

/-! ## C6: the empty grid encodes to a lone terminator -/

theorem exceptBind_ok (x : α) (f : α → Except NbsError β) :
    (Except.ok x >>= f : Except NbsError β) = f x := rfl

theorem exceptBind_err (e : NbsError) (f : α → Except NbsError β) :
    ((Except.error e : Except NbsError α) >>= f) = .error e := rfl

theorem encodeTickRow_no_notes (ver t hJ : Int) (layers : List Layer) (li vc : Int) (b : Bool)
    (h : ∀ l ∈ layers, NMap.get? l.notes t = none) :
    encodeTickRow ver t hJ layers li vc b = .ok ([], b) := by
  induction layers generalizing li with
  | nil => rfl
  | cons l ls ih =>
    have hl : NMap.get? l.notes t = none := h l (by simp)
    rw [encodeTickRow, hl]
    exact ih (li + 1) (fun l' hl' => h l' (by simp [hl']))

theorem encodeTicksAux_no_notes (ver : Int) (layers : List Layer) (n : Nat) (ni hc : Int)
    (h : ∀ l ∈ layers, l.notes = ([] : NMap)) :
    encodeTicksAux ver layers n ni hc = .ok [] := by
  induction n generalizing ni hc with
  | zero => rfl
  | succ n ih =>
    rw [encodeTicksAux]
    rw [encodeTickRow_no_notes ver ni (wrap16 (ni - hc)) layers 0 (-1) false
      (fun l hl => by rw [h l hl]; rfl)]
    rw [exceptBind_ok]
    simp only [Bool.false_eq_true, if_false]
    rw [ih (ni + 1) hc]
    rfl

/-- C6: a grid with zero notes anywhere encodes to exactly the single
terminating zero tick jump followed by the layer table: no tick jump, layer
jump, note record or row terminator is written. -/
theorem encode_empty_grid (nb : NoteBlocks) (fmt : NbsFormat)
    (h : ∀ l ∈ nb.layers, l.notes = ([] : NMap)) :
    NoteBlocks.encode nb fmt =
      (encodeLayerTable fmt.version nb.layers).map (fun table => i16Bytes 0 ++ table) := by
  unfold NoteBlocks.encode
  rw [encodeTicksAux_no_notes fmt.version nb.layers _ 0 (-1) h]
  rw [exceptBind_ok]
  cases htab : encodeLayerTable fmt.version nb.layers
  · rfl
  · rfl

/-- A note-free one-layer grid with all version-4 layer fields present. -/
def exampleEmptyNb : NoteBlocks :=
  { layers := [{ name := [], locked := some false, volume := some 100,
                 stereo := some 100, notes := ([] : List (Int × Note)) }] }

/-- Witness for C6 on a concrete note-free grid. -/
theorem encode_empty_grid_witness :
    (∀ l ∈ exampleEmptyNb.layers, l.notes = ([] : NMap)) ∧
    NoteBlocks.encode exampleEmptyNb (NbsFormat.openNoteBlockStudio 4) =
      (encodeLayerTable (NbsFormat.openNoteBlockStudio 4).version exampleEmptyNb.layers).map
        (fun table => i16Bytes 0 ++ table) :=
  ⟨by decide, encode_empty_grid exampleEmptyNb (NbsFormat.openNoteBlockStudio 4) (by decide)⟩

/-! ## C5: encoding an extended header with missing loop fields -/

/-- C5: for an extended target format (version ≥ 1; the spec's extended
versions are 1–4) with the three loop fields absent, `Header::encode` fails
with the missing-required-field error kind (`InvalidTargetFormat`, the
variant `error.rs` documents as "the format to encode with expected some
information that was not given").  In this model a failing encode produces no
byte stream at all, so in particular no sentinel zeros are written for those
fields. -/
theorem header_encode_missing_loop_fields (h : Header) (v : Int)
    (hv : 1 ≤ v)
    (hvn : h.version_number.isSome = true)
    (hvic : h.vannila_instrument_count.isSome = true)
    (hsl : 3 ≤ v → h.song_length.isSome = true)
    (hl1 : h.is_loop = none) (hl2 : h.max_loop_count = none)
    (hl3 : h.loop_start_tick = none) :
    Header.encode h (NbsFormat.openNoteBlockStudio v) = .error .invalidTargetFormat := by
  obtain ⟨vn, hvn'⟩ := Option.isSome_iff_exists.mp hvn
  obtain ⟨vic, hvic'⟩ := Option.isSome_iff_exists.mp hvic
  have hv0 : (0 : Int) < v := by omega
  by_cases h3 : 3 ≤ v
  · obtain ⟨sl, hsl'⟩ := Option.isSome_iff_exists.mp (hsl h3)
    simp [Header.encode, NbsFormat.version, hvn', hvic', hsl', hl1, okOr, hv0, h3,
      Bind.bind, Except.bind]
  · simp [Header.encode, NbsFormat.version, hvn', hvic', hl1, okOr, hv0, h3,
      Bind.bind, Except.bind]

/-- A version-1 header whose loop fields are all absent. -/
def exampleHeaderV1NoLoop : Header :=
  { exampleHeader4 with
    version_number := some 1,
    song_length := none,
    is_loop := none,
    max_loop_count := none,
    loop_start_tick := none,
    format := NbsFormat.openNoteBlockStudio 1 }

/-- Witness for C5 on the concrete version-1 header. -/
theorem header_encode_missing_loop_fields_witness :
    (1 : Int) ≤ 1 ∧
    Header.encode exampleHeaderV1NoLoop (NbsFormat.openNoteBlockStudio 1) =
      .error .invalidTargetFormat :=
  ⟨le_refl 1,
   header_encode_missing_loop_fields exampleHeaderV1NoLoop 1 (le_refl 1) (by decide)
     (by decide) (fun h3 => absurd h3 (by norm_num)) rfl rfl rfl⟩

/-! ## C9: the frame effect of `Nbs::update` -/

/-- C9: `update` touches only the version-appropriate song-length field
(the extended `song_length` when version ≥ 3, the legacy `old_song_length`
when version = 0, neither for versions 1–2), the version number (only when
version > 0) and the layer count; every other header field, the note grid
and the custom-instrument table are returned unchanged. -/
theorem nbs_update_frame (n : Nbs) :
    (n.update.noteblocks = n.noteblocks ∧
     n.update.custom_instruments = n.custom_instruments ∧
     n.update.header.format = n.header.format ∧
     n.update.header.vannila_instrument_count = n.header.vannila_instrument_count ∧
     n.update.header.song_name = n.header.song_name ∧
     n.update.header.song_author = n.header.song_author ∧
     n.update.header.original_song_author = n.header.original_song_author ∧
     n.update.header.song_description = n.header.song_description ∧
     n.update.header.song_tempo = n.header.song_tempo ∧
     n.update.header.auto_saving = n.header.auto_saving ∧
     n.update.header.auto_saving_duration = n.header.auto_saving_duration ∧
     n.update.header.time_signature = n.header.time_signature ∧
     n.update.header.minutes_spent = n.header.minutes_spent ∧
     n.update.header.left_clicks = n.header.left_clicks ∧
     n.update.header.right_clicks = n.header.right_clicks ∧
     n.update.header.noteblocks_added = n.header.noteblocks_added ∧
     n.update.header.noteblocks_removed = n.header.noteblocks_removed ∧
     n.update.header.imported_file_name = n.header.imported_file_name ∧
     n.update.header.is_loop = n.header.is_loop ∧
     n.update.header.max_loop_count = n.header.max_loop_count ∧
     n.update.header.loop_start_tick = n.header.loop_start_tick) ∧
    n.update.header.layer_count = wrap16 (n.noteblocks.layers.length : Int) ∧
    (n.format.version ≥ 3 →
      n.update.header.song_length = some n.noteblocks.calculate_length ∧
      n.update.header.old_song_length = n.header.old_song_length) ∧
    (n.format.version = 0 →
      n.update.header.old_song_length = n.noteblocks.calculate_length ∧
      n.update.header.song_length = n.header.song_length) ∧
    (0 < n.format.version ∧ n.format.version < 3 →
      n.update.header.song_length = n.header.song_length ∧
      n.update.header.old_song_length = n.header.old_song_length) ∧
    (0 < n.format.version →
      n.update.header.version_number = some n.format.version) ∧
    (n.format.version ≤ 0 →
      n.update.header.version_number = n.header.version_number) := by
  unfold Nbs.update
  split_ifs <;> simp_all <;> omega

/-- A small version-4 song with one (empty) layer. -/
def exampleSong4 : Nbs :=
  { header := exampleHeader4, noteblocks := exampleEmptyNb,
    custom_instruments := CustomInstruments.new }

/-- Witness for C9 on the concrete version-4 song. -/
theorem nbs_update_frame_witness :
    exampleSong4.update.noteblocks = exampleSong4.noteblocks ∧
    exampleSong4.update.header.song_length = some exampleSong4.noteblocks.calculate_length ∧
    exampleSong4.update.header.song_tempo = exampleSong4.header.song_tempo :=
  ⟨(nbs_update_frame exampleSong4).1.1,
   ((nbs_update_frame exampleSong4).2.2.1 (by decide)).1,
   (nbs_update_frame exampleSong4).1.2.2.2.2.2.2.2.2.1⟩

/-! ## C10: notes at negative ticks are invisible -/

/-- All tick coordinates carried anywhere in the grid, in layer order. -/
def NoteBlocks.allTicks (nb : NoteBlocks) : List Int :=
  (nb.layers.map (fun l => l.notes.map Prod.fst)).flatten

/-- Models the in-place mutation `layers[i].notes.insert(tick, note)` that the
crate's editing example performs on a song: replace layer `i`'s note map by
the map with the extra note (no change when `i` is out of range). -/
def insertNoteInLayers : List Layer → Nat → Int → Note → List Layer
  | [], _, _, _ => []
  | l :: ls, 0, t, note => { l with notes := NMap.insert l.notes t note } :: ls
  | l :: ls, i + 1, t, note => l :: insertNoteInLayers ls i t note

def NoteBlocks.insertNote (nb : NoteBlocks) (i : Nat) (t : Int) (note : Note) : NoteBlocks :=
  { layers := insertNoteInLayers nb.layers i t note }

theorem foldl_max_init (l : List (Int × Note)) (a b : Int) :
    l.foldl (fun acc p => max acc p.1) (max a b) =
      max (l.foldl (fun acc p => max acc p.1) a) b := by
  induction l generalizing a with
  | nil => rfl
  | cons p l ih =>
    simp only [List.foldl_cons]
    rw [show max (max a b) p.1 = max (max a p.1) b by
      rw [max_comm a b, max_assoc, max_comm b (max a p.1)], ih]

theorem le_foldl_max (l : List (Int × Note)) (a : Int) :
    a ≤ l.foldl (fun acc p => max acc p.1) a := by
  induction l generalizing a with
  | nil => exact le_refl a
  | cons p l ih =>
    simp only [List.foldl_cons]
    exact le_trans (le_max_left a p.1) (ih (max a p.1))

theorem foldl_max_filter (l : List (Int × Note)) (a t : Int) :
    max ((l.filter (fun p => p.1 != t)).foldl (fun acc p => max acc p.1) a) t =
      max (l.foldl (fun acc p => max acc p.1) a) t := by
  induction l generalizing a with
  | nil => rfl
  | cons p l ih =>
    by_cases hp : p.1 = t
    · have hfil : (p :: l).filter (fun p => p.1 != t) = l.filter (fun p => p.1 != t) := by
        simp [List.filter_cons, hp]
      rw [hfil, List.foldl_cons]
      rw [hp, foldl_max_init, max_assoc, max_self]
      exact ih a
    · have hfil : (p :: l).filter (fun p => p.1 != t) = p :: l.filter (fun p => p.1 != t) := by
        simp [List.filter_cons, hp]
      rw [hfil, List.foldl_cons, List.foldl_cons]
      exact ih (max a p.1)

theorem nmap_foldl_max_insert (m : NMap) (t : Int) (note : Note) (len : Int)
    (hlen : 0 ≤ len) (ht : t < 0) :
    (NMap.insert m t note).foldl (fun acc p => max acc p.1) len =
      m.foldl (fun acc p => max acc p.1) len := by
  unfold NMap.insert NMap.entries
  rw [List.foldl_cons]
  dsimp only
  have h1 : max len t = len := by omega
  rw [h1]
  have h2 := foldl_max_filter m len t
  have h3 := le_foldl_max (m.filter (fun p => p.1 != t)) len
  have h4 := le_foldl_max m len
  omega

theorem maxKey?_foldl (m : NMap) (a : Int) :
    m.foldl
      (fun acc p =>
        match acc with
        | none => some p.1
        | some x => some (max x p.1)) (some a) =
      some (m.foldl (fun acc p => max acc p.1) a) := by
  induction m generalizing a with
  | nil => rfl
  | cons p l ih => simp only [List.foldl_cons]; exact ih (max a p.1)

/-- The per-layer step of `calculate_length` is a plain fold of `max` over the
layer's tick keys starting from the running length. -/
theorem calculate_length_layer_step (m : NMap) (len : Int) :
    (match NMap.maxKey? m with
     | some k => if k > len then k else len
     | none => len) = m.foldl (fun acc p => max acc p.1) len := by
  cases m with
  | nil => rfl
  | cons p l =>
    unfold NMap.maxKey? NMap.entries
    rw [List.foldl_cons]
    show (match l.foldl _ (some p.1) with
          | some k => if k > len then k else len
          | none => len) = _
    rw [maxKey?_foldl l p.1]
    show (if l.foldl (fun acc p => max acc p.1) p.1 > len then
            l.foldl (fun acc p => max acc p.1) p.1 else len) = _
    rw [List.foldl_cons]
    rw [max_comm len p.1, foldl_max_init l p.1 len]
    rw [max_def]
    split_ifs <;> omega

theorem calculate_length_as_foldl (layers : List Layer) (len : Int) :
    layers.foldl
      (fun length layer =>
        match NMap.maxKey? layer.notes with
        | some k => if k > length then k else length
        | none => length) len =
      layers.foldl (fun length layer => layer.notes.foldl (fun acc p => max acc p.1) length) len := by
  induction layers generalizing len with
  | nil => rfl
  | cons l ls ih =>
    simp only [List.foldl_cons]
    rw [calculate_length_layer_step l.notes len]
    exact ih _

theorem foldl_nonneg_layers (layers : List Layer) (len : Int) (h : 0 ≤ len) :
    0 ≤ layers.foldl
      (fun length layer => layer.notes.foldl (fun acc p => max acc p.1) length) len := by
  induction layers generalizing len with
  | nil => exact h
  | cons l ls ih => exact ih _ (le_trans h (le_foldl_max l.notes len))

theorem find?_filter_ne (m : List (Int × Note)) (k t : Int) (hk : k ≠ t) :
    (m.filter (fun p => p.1 != t)).find? (fun p => p.1 == k) =
      m.find? (fun p => p.1 == k) := by
  induction m with
  | nil => rfl
  | cons p l ih =>
    by_cases hp : p.1 = t
    · have hnk : (p.1 == k) = false := by
        rw [hp]
        exact beq_eq_false_iff_ne.mpr (Ne.symm hk)
      rw [show (p :: l).filter (fun p => p.1 != t) = l.filter (fun p => p.1 != t) by
        simp [List.filter_cons, hp]]
      rw [List.find?_cons, hnk, ih]
    · rw [show (p :: l).filter (fun p => p.1 != t) = p :: l.filter (fun p => p.1 != t) by
        simp [List.filter_cons, hp]]
      rw [List.find?_cons, List.find?_cons]
      cases hpk : (p.1 == k)
      · exact ih
      · rfl

theorem nmap_get?_insert_ne (m : NMap) (t k : Int) (note : Note) (hk : k ≠ t) :
    NMap.get? (NMap.insert m t note) k = NMap.get? m k := by
  unfold NMap.get? NMap.insert NMap.entries
  rw [List.find?_cons, show ((t, note).1 == k) = false from beq_eq_false_iff_ne.mpr (Ne.symm hk)]
  rw [find?_filter_ne m k t hk]

theorem foldl_layers_insert (layers : List Layer) (i : Nat) (t : Int) (note : Note)
    (len : Int) (hlen : 0 ≤ len) (ht : t < 0) :
    (insertNoteInLayers layers i t note).foldl
      (fun length layer => layer.notes.foldl (fun acc p => max acc p.1) length) len =
    layers.foldl
      (fun length layer => layer.notes.foldl (fun acc p => max acc p.1) length) len := by
  induction layers generalizing i len with
  | nil => rfl
  | cons l ls ih =>
    cases i with
    | zero =>
      rw [insertNoteInLayers, List.foldl_cons, List.foldl_cons]
      rw [show ({ l with notes := NMap.insert l.notes t note } : Layer).notes =
        NMap.insert l.notes t note from rfl]
      rw [nmap_foldl_max_insert l.notes t note len hlen ht]
    | succ i =>
      rw [insertNoteInLayers, List.foldl_cons, List.foldl_cons]
      exact ih i _ (le_trans hlen (le_foldl_max l.notes len))

theorem calculate_length_insertNote (nb : NoteBlocks) (i : Nat) (t : Int) (note : Note)
    (ht : t < 0) :
    (nb.insertNote i t note).calculate_length = nb.calculate_length := by
  unfold NoteBlocks.calculate_length NoteBlocks.insertNote
  rw [calculate_length_as_foldl, calculate_length_as_foldl]
  exact foldl_layers_insert nb.layers i t note 0 (le_refl 0) ht

theorem encodeTickRow_insert (ver tick hJ : Int) (layers : List Layer) (i : Nat)
    (t : Int) (note : Note) (hne : tick ≠ t) :
    ∀ (li vc : Int) (b : Bool),
    encodeTickRow ver tick hJ (insertNoteInLayers layers i t note) li vc b =
      encodeTickRow ver tick hJ layers li vc b := by
  induction layers generalizing i with
  | nil => intro li vc b; rfl
  | cons l ls ih =>
    intro li vc b
    cases i with
    | zero =>
      rw [insertNoteInLayers, encodeTickRow, encodeTickRow]
      rw [show ({ l with notes := NMap.insert l.notes t note } : Layer).notes =
        NMap.insert l.notes t note from rfl]
      rw [nmap_get?_insert_ne l.notes t tick note hne]
    | succ i =>
      rw [insertNoteInLayers, encodeTickRow, encodeTickRow]
      simp only [ih]

theorem encodeTicksAux_insert (ver : Int) (layers : List Layer) (i : Nat) (t : Int)
    (note : Note) (ht : t < 0) :
    ∀ (n : Nat) (ni hc : Int), 0 ≤ ni →
    encodeTicksAux ver (insertNoteInLayers layers i t note) n ni hc =
      encodeTicksAux ver layers n ni hc := by
  intro n
  induction n with
  | zero => intro ni hc _; rfl
  | succ n ihn =>
    intro ni hc hni
    rw [encodeTicksAux, encodeTicksAux]
    rw [encodeTickRow_insert ver ni (wrap16 (ni - hc)) layers i t note (by omega) 0 (-1) false]
    have ihn' : ∀ hc' : Int,
        encodeTicksAux ver (insertNoteInLayers layers i t note) n (ni + 1) hc' =
          encodeTicksAux ver layers n (ni + 1) hc' :=
      fun hc' => ihn (ni + 1) hc' (by omega)
    simp only [ihn']

theorem encodeLayerTable_insert (ver : Int) (layers : List Layer) (i : Nat) (t : Int)
    (note : Note) :
    encodeLayerTable ver (insertNoteInLayers layers i t note) = encodeLayerTable ver layers := by
  induction layers generalizing i with
  | nil => rfl
  | cons l ls ih =>
    cases i with
    | zero => rfl
    | succ i =>
      rw [insertNoteInLayers, encodeLayerTable, encodeLayerTable, ih i]

/-- C10: a note under a negative tick key is invisible at the public
interface.  `calculate_length` is exactly the fold of `max` over 0 and every
tick coordinate in the grid (so negative ticks never contribute), and
inserting a note at a negative tick changes neither `calculate_length` nor a
single byte of `NoteBlocks::encode`'s output (in particular encode still
succeeds or fails exactly as before). -/
theorem negative_tick_note_invisible :
    (∀ nb : NoteBlocks,
      nb.calculate_length = nb.allTicks.foldl (fun a t => max a t) 0) ∧
    (∀ (nb : NoteBlocks) (i : Nat) (t : Int) (note : Note), t < 0 →
      (nb.insertNote i t note).calculate_length = nb.calculate_length ∧
      ∀ fmt : NbsFormat, (nb.insertNote i t note).encode fmt = nb.encode fmt) := by
  constructor
  · intro nb
    unfold NoteBlocks.calculate_length NoteBlocks.allTicks
    rw [calculate_length_as_foldl]
    generalize (0 : Int) = a
    induction nb.layers generalizing a with
    | nil => rfl
    | cons l ls ih =>
      rw [List.map_cons, List.flatten_cons, List.foldl_append, List.foldl_cons, List.foldl_map]
      exact ih _
  · intro nb i t note ht
    refine ⟨calculate_length_insertNote nb i t note ht, fun fmt => ?_⟩
    unfold NoteBlocks.encode
    rw [show (nb.insertNote i t note).layers = insertNoteInLayers nb.layers i t note from rfl]
    rw [calculate_length_insertNote nb i t note ht]
    rw [encodeTicksAux_insert fmt.version nb.layers i t note ht _ 0 (-1) (le_refl 0)]
    rw [encodeLayerTable_insert fmt.version nb.layers i t note]

/-- Witness for C10: inserting a note at tick −5 into the one-layer grid
leaves length and encoding untouched. -/
theorem negative_tick_note_invisible_witness :
    (-5 : Int) < 0 ∧
    (exampleEmptyNb.insertNote 0 (-5) exampleNoteVanilla15).calculate_length =
      exampleEmptyNb.calculate_length ∧
    (exampleEmptyNb.insertNote 0 (-5) exampleNoteVanilla15).encode
        (NbsFormat.openNoteBlockStudio 4) =
      exampleEmptyNb.encode (NbsFormat.openNoteBlockStudio 4) :=
  ⟨by norm_num,
   (negative_tick_note_invisible.2 exampleEmptyNb 0 (-5) exampleNoteVanilla15 (by norm_num)).1,
   (negative_tick_note_invisible.2 exampleEmptyNb 0 (-5) exampleNoteVanilla15 (by norm_num)).2
     (NbsFormat.openNoteBlockStudio 4)⟩

/-! ## C4: out-of-range layer references -/

theorem noITF_bind {α β : Type} {p : Decoder α} {f : α → Decoder β}
    (hp : ∀ s, p s ≠ .err .invalidTargetFormat)
    (hf : ∀ a s, f a s ≠ .err .invalidTargetFormat) :
    ∀ s, (p >>= f) s ≠ .err .invalidTargetFormat := by
  intro s
  show Decoder.bind p f s ≠ _
  unfold Decoder.bind
  cases hps : p s with
  | ok a s1 => exact hf a s1
  | err e => intro hcon; injection hcon with h; exact hp s (by rw [hps, h])
  | panicked => exact fun hcon => DRes.noConfusion hcon

theorem noITF_pure {α : Type} (a : α) :
    ∀ s, (Decoder.pure a) s ≠ .err .invalidTargetFormat :=
  fun _ hcon => DRes.noConfusion hcon

theorem noITF_liftRead {α : Type} (r : Bytes → Option (α × Bytes)) :
    ∀ s, liftRead r s ≠ .err .invalidTargetFormat := by
  intro s
  unfold liftRead
  cases r s with
  | some p => exact fun hcon => DRes.noConfusion hcon
  | none => intro hcon; injection hcon with h; exact NbsError.noConfusion h

theorem noITF_map {α β : Type} (f : α → β) (p : Decoder α)
    (hp : ∀ s, p s ≠ .err .invalidTargetFormat) :
    ∀ s, (f <$> p) s ≠ .err .invalidTargetFormat := by
  intro s
  show Decoder.bind p (fun a => Decoder.pure (f a)) s ≠ _
  unfold Decoder.bind
  cases hps : p s with
  | ok a s1 => exact noITF_pure (f a) s1
  | err e => intro hcon; injection hcon with h; exact hp s (by rw [hps, h])
  | panicked => exact fun hcon => DRes.noConfusion hcon

theorem noITF_pString : ∀ s, pString s ≠ .err .invalidTargetFormat := by
  intro s
  unfold pString read_string
  cases readI32 s with
  | none => intro hcon; injection hcon with h; exact NbsError.noConfusion h
  | some p =>
    obtain ⟨len, s1⟩ := p
    dsimp only
    split_ifs with h1 h2 h3
    · intro hcon; injection hcon with h; exact NbsError.noConfusion h
    · intro hcon; injection hcon with h; exact NbsError.noConfusion h
    · exact fun hcon => DRes.noConfusion hcon
    · intro hcon; injection hcon with h; exact NbsError.noConfusion h

theorem noITF_pOptI8 (c : Prop) [Decidable c] :
    ∀ s, pOptI8 c s ≠ .err .invalidTargetFormat := by
  intro s
  unfold pOptI8
  split_ifs with hc
  · exact noITF_map some pI8 (noITF_liftRead _) s
  · exact noITF_pure none s

theorem noITF_pOptI16 (c : Prop) [Decidable c] :
    ∀ s, pOptI16 c s ≠ .err .invalidTargetFormat := by
  intro s
  unfold pOptI16
  split_ifs with hc
  · exact noITF_map some pI16 (noITF_liftRead _) s
  · exact noITF_pure none s

theorem noITF_pOptBoolD (c : Prop) [Decidable c] (d : Option Bool) :
    ∀ s, pOptBoolD c d s ≠ .err .invalidTargetFormat := by
  intro s
  unfold pOptBoolD
  split_ifs with hc
  · exact noITF_map _ pI8 (noITF_liftRead _) s
  · exact noITF_pure d s

theorem noITF_pOptI8D (c : Prop) [Decidable c] (d : Option Int) :
    ∀ s, pOptI8D c d s ≠ .err .invalidTargetFormat := by
  intro s
  unfold pOptI8D
  split_ifs with hc
  · exact noITF_map some pI8 (noITF_liftRead _) s
  · exact noITF_pure d s

theorem decodeNote_no_itf (header : Header)
    (hc : header.format = .noteBlockStudio ∨ header.vannila_instrument_count ≠ none) :
    ∀ s, decodeNote header s ≠ .err .invalidTargetFormat := by
  have hvic : ∃ c, header.getVannilaInstrumentCount = .ok c := by
    unfold Header.getVannilaInstrumentCount
    cases hfmt : header.format with
    | noteBlockStudio => exact ⟨10, rfl⟩
    | openNoteBlockStudio v =>
      rcases hc with hl | hv
      · rw [hfmt] at hl; exact absurd hl (by simp)
      · cases hcnt : header.vannila_instrument_count with
        | none => exact absurd hcnt hv
        | some c => exact ⟨c, by simp [okOr, hcnt]⟩
  obtain ⟨c, hvic⟩ := hvic
  intro s
  unfold decodeNote
  refine noITF_bind (noITF_liftRead _) (fun id s1 => ?_) s
  simp only [hvic]
  refine noITF_bind (noITF_pure _) (fun instr s2 => ?_) s1
  refine noITF_bind (noITF_liftRead _) (fun key s3 => ?_) s2
  refine noITF_bind (noITF_pOptI8 _) (fun vel s4 => ?_) s3
  refine noITF_bind (noITF_pOptI8 _) (fun pan s5 => ?_) s4
  refine noITF_bind (noITF_pOptI16 _) (fun pit s6 => ?_) s5
  exact noITF_pure _ s6

theorem decodeRow_no_itf (header : Header)
    (hc : header.format = .noteBlockStudio ∨ header.vannila_instrument_count ≠ none)
    (tick : Int) :
    ∀ (fuel : Nat) (layers : List Layer) (layer : Int) (s : Bytes),
      decodeRow header tick fuel layers layer s ≠ .err .invalidTargetFormat := by
  intro fuel
  induction fuel with
  | zero => intro _ _ _ hcon; injection hcon with h; exact NbsError.noConfusion h
  | succ fuel ih =>
    intro layers layer s
    rw [decodeRow]
    cases readI16 s with
    | none => intro hcon; injection hcon with h; exact NbsError.noConfusion h
    | some p =>
      obtain ⟨jumps, s1⟩ := p
      dsimp only
      split_ifs with hj
      · exact fun hcon => DRes.noConfusion hcon
      · cases hn : decodeNote header s1 with
        | ok note s2 =>
          dsimp only
          cases setNoteAt layers (wrap16 (layer + jumps)) tick note with
          | none => exact fun hcon => DRes.noConfusion hcon
          | some layers1 => exact ih layers1 (wrap16 (layer + jumps)) s2
        | err e =>
          dsimp only
          intro hcon
          injection hcon with h
          exact decodeNote_no_itf header hc s1 (by rw [hn, h])
        | panicked => exact fun hcon => DRes.noConfusion hcon

theorem decodeTicks_no_itf (header : Header)
    (hc : header.format = .noteBlockStudio ∨ header.vannila_instrument_count ≠ none) :
    ∀ (fuel : Nat) (layers : List Layer) (tick : Int) (s : Bytes),
      decodeTicks header fuel layers tick s ≠ .err .invalidTargetFormat := by
  intro fuel
  induction fuel with
  | zero => intro _ _ _ hcon; injection hcon with h; exact NbsError.noConfusion h
  | succ fuel ih =>
    intro layers tick s
    rw [decodeTicks]
    cases readI16 s with
    | none => intro hcon; injection hcon with h; exact NbsError.noConfusion h
    | some p =>
      obtain ⟨jumps, s1⟩ := p
      dsimp only
      split_ifs with hj
      · exact fun hcon => DRes.noConfusion hcon
      · cases hr : decodeRow header (wrap16 (tick + jumps)) fuel layers (-1) s1 with
        | ok layers1 s2 => exact ih layers1 (wrap16 (tick + jumps)) s2
        | err e =>
          dsimp only
          intro hcon
          injection hcon with h
          exact decodeRow_no_itf header hc _ fuel layers (-1) s1 (by rw [hr, h])
        | panicked => exact fun hcon => DRes.noConfusion hcon

theorem decodeLayerTable_no_itf (ver : Int) :
    ∀ (layers : List Layer) (s : Bytes),
      decodeLayerTable ver layers s ≠ .err .invalidTargetFormat := by
  intro layers
  induction layers with
  | nil => exact fun s => noITF_pure [] s
  | cons l ls ih =>
    intro s
    unfold decodeLayerTable
    refine noITF_bind noITF_pString (fun name s1 => ?_) s
    refine noITF_bind (noITF_pOptBoolD _ _) (fun locked s2 => ?_) s1
    refine noITF_bind (noITF_liftRead _) (fun vol s3 => ?_) s2
    refine noITF_bind (noITF_pOptI8D _ _) (fun stereo s4 => ?_) s3
    refine noITF_bind (fun s' => ih s') (fun rest s5 => ?_) s4
    exact noITF_pure _ s5

/-- Part of C4 as amended: the note-grid decoder can fail with an io error,
an invalid-string error, or a panic, but — whenever the header's
vanilla-instrument count is resolvable (always for legacy format, and
whenever the field is present for extended format) — it never returns the
invalid-format error kind, for any input stream whatsoever. -/
theorem notegrid_decode_no_invalid_format (header : Header)
    (hc : header.format = .noteBlockStudio ∨ header.vannila_instrument_count ≠ none)
    (s : Bytes) :
    NoteBlocks.decode header s ≠ .err .invalidTargetFormat := by
  unfold NoteBlocks.decode
  dsimp only
  cases ht : decodeTicks header (s.length + 1)
      (List.replicate header.layer_count.toNat (Layer.from_format header.format)) (-1) s with
  | ok layers1 s1 =>
    dsimp only
    cases hl : decodeLayerTable header.format.version layers1 s1 with
    | ok layers2 s2 => exact fun hcon => DRes.noConfusion hcon
    | err e =>
      dsimp only
      intro hcon
      injection hcon with h
      exact decodeLayerTable_no_itf _ layers1 s1 (by rw [hl, h])
    | panicked => exact fun hcon => DRes.noConfusion hcon
  | err e =>
    dsimp only
    intro hcon
    injection hcon with h
    exact decodeTicks_no_itf header hc _ _ (-1) s (by rw [ht, h])
  | panicked => exact fun hcon => DRes.noConfusion hcon

/-- Counterexample to C4 as stated: on a legacy header with zero
pre-allocated layers, a stream whose first note record lands on layer 0 makes
the source `unwrap` a missing layer — a panic, not an `InvalidFormat`
error. -/
theorem notegrid_decode_out_of_range_panics :
    NoteBlocks.decode exampleHeaderLegacy0 [1, 0, 1, 0, 0, 0] = .panicked ∧
    (DRes.panicked : DRes NoteBlocks) ≠ .err .invalidTargetFormat := by
  exact ⟨by decide, fun hcon => DRes.noConfusion hcon⟩

/-- Witness for the amended C4 on the legacy example header. -/
theorem notegrid_decode_no_invalid_format_witness :
    (exampleHeaderLegacy0.format = .noteBlockStudio ∨
      exampleHeaderLegacy0.vannila_instrument_count ≠ none) ∧
    NoteBlocks.decode exampleHeaderLegacy0 [1, 0, 1, 0, 0, 0] ≠ .err .invalidTargetFormat :=
  ⟨Or.inl rfl,
   notegrid_decode_no_invalid_format exampleHeaderLegacy0 (Or.inl rfl) [1, 0, 1, 0, 0, 0]⟩

/-! ## C7: version gating of optional note/layer fields -/

theorem Decoder.bind_inv {α β : Type} {p : Decoder α} {f : α → Decoder β}
    {s s2 : Bytes} {b : β}
    (h : (p >>= f) s = .ok b s2) : ∃ a s1, p s = .ok a s1 ∧ f a s1 = .ok b s2 := by
  have h' : Decoder.bind p f s = .ok b s2 := h
  unfold Decoder.bind at h'
  revert h'
  cases hps : p s with
  | ok a s1 =>
    dsimp only
    intro h'
    exact ⟨a, s1, rfl, h'⟩
  | err e =>
    dsimp only
    intro h'
    exact DRes.noConfusion h'
  | panicked =>
    dsimp only
    intro h'
    exact DRes.noConfusion h'

theorem Decoder.pure_inv {α : Type} {a b : α} {s s' : Bytes}
    (h : Decoder.pure a s = .ok b s') : b = a ∧ s' = s := by
  unfold Decoder.pure at h
  injection h with h1 h2
  exact ⟨h1.symm, h2.symm⟩

theorem pOptI8_inv_neg {c : Prop} [Decidable c] {s s' : Bytes} {v : Option Int}
    (hc : ¬c) (h : pOptI8 c s = .ok v s') : v = none := by
  unfold pOptI8 at h
  rw [if_neg hc] at h
  exact (Decoder.pure_inv h).1

theorem pOptI8_inv_pos {c : Prop} [Decidable c] {s s' : Bytes} {v : Option Int}
    (hc : c) (h : pOptI8 c s = .ok v s') : v.isSome = true := by
  unfold pOptI8 at h
  rw [if_pos hc] at h
  have h' : Decoder.bind pI8 (fun a => Decoder.pure (some a)) s = .ok v s' := h
  unfold Decoder.bind at h'
  revert h'
  cases pI8 s with
  | ok a s1 =>
    dsimp only
    intro h'
    rw [(Decoder.pure_inv h').1]
    rfl
  | err e => dsimp only; intro h'; exact DRes.noConfusion h'
  | panicked => dsimp only; intro h'; exact DRes.noConfusion h'

theorem pOptI16_inv_neg {c : Prop} [Decidable c] {s s' : Bytes} {v : Option Int}
    (hc : ¬c) (h : pOptI16 c s = .ok v s') : v = none := by
  unfold pOptI16 at h
  rw [if_neg hc] at h
  exact (Decoder.pure_inv h).1

theorem pOptI16_inv_pos {c : Prop} [Decidable c] {s s' : Bytes} {v : Option Int}
    (hc : c) (h : pOptI16 c s = .ok v s') : v.isSome = true := by
  unfold pOptI16 at h
  rw [if_pos hc] at h
  have h' : Decoder.bind pI16 (fun a => Decoder.pure (some a)) s = .ok v s' := h
  unfold Decoder.bind at h'
  revert h'
  cases pI16 s with
  | ok a s1 =>
    dsimp only
    intro h'
    rw [(Decoder.pure_inv h').1]
    rfl
  | err e => dsimp only; intro h'; exact DRes.noConfusion h'
  | panicked => dsimp only; intro h'; exact DRes.noConfusion h'

theorem pOptBoolD_inv_neg {c : Prop} [Decidable c] {d : Option Bool} {s s' : Bytes}
    {v : Option Bool} (hc : ¬c) (h : pOptBoolD c d s = .ok v s') : v = d := by
  unfold pOptBoolD at h
  rw [if_neg hc] at h
  exact (Decoder.pure_inv h).1

theorem pOptBoolD_inv_pos {c : Prop} [Decidable c] {d : Option Bool} {s s' : Bytes}
    {v : Option Bool} (hc : c) (h : pOptBoolD c d s = .ok v s') : v.isSome = true := by
  unfold pOptBoolD at h
  rw [if_pos hc] at h
  have h' : Decoder.bind pI8 (fun a => Decoder.pure (some (a == 1))) s = .ok v s' := h
  unfold Decoder.bind at h'
  revert h'
  cases pI8 s with
  | ok a s1 =>
    dsimp only
    intro h'
    rw [(Decoder.pure_inv h').1]
    rfl
  | err e => dsimp only; intro h'; exact DRes.noConfusion h'
  | panicked => dsimp only; intro h'; exact DRes.noConfusion h'

theorem pOptI8D_inv_neg {c : Prop} [Decidable c] {d : Option Int} {s s' : Bytes}
    {v : Option Int} (hc : ¬c) (h : pOptI8D c d s = .ok v s') : v = d := by
  unfold pOptI8D at h
  rw [if_neg hc] at h
  exact (Decoder.pure_inv h).1

theorem pOptI8D_inv_pos {c : Prop} [Decidable c] {d : Option Int} {s s' : Bytes}
    {v : Option Int} (hc : c) (h : pOptI8D c d s = .ok v s') : v.isSome = true := by
  unfold pOptI8D at h
  rw [if_pos hc] at h
  have h' : Decoder.bind pI8 (fun a => Decoder.pure (some a)) s = .ok v s' := h
  unfold Decoder.bind at h'
  revert h'
  cases pI8 s with
  | ok a s1 =>
    dsimp only
    intro h'
    rw [(Decoder.pure_inv h').1]
    rfl
  | err e => dsimp only; intro h'; exact DRes.noConfusion h'
  | panicked => dsimp only; intro h'; exact DRes.noConfusion h'

/-- The version-gated shape of a decoded note's optional fields. -/
def NoteGate (ver : Int) (n : Note) : Prop :=
  (4 ≤ ver → n.velocity.isSome = true ∧ n.panning.isSome = true ∧ n.pitch.isSome = true) ∧
  (¬ 4 ≤ ver → n.velocity = none ∧ n.panning = none ∧ n.pitch = none)

/-- The invariant carried through the jump-decoded grid: pre-version-4
`locked` stays untouched (`none` from `from_format`), and every note seen so
far has version-appropriate optional fields. -/
def LayerGateMid (ver : Int) (l : Layer) : Prop :=
  (¬ 4 ≤ ver → l.locked = none) ∧ ∀ p ∈ l.notes, NoteGate ver p.2

/-- The shape after the trailing layer table has been read. -/
def LayerGateFinal (ver : Int) (l : Layer) : Prop :=
  (4 ≤ ver → l.locked.isSome = true) ∧
  (¬ 4 ≤ ver → l.locked = none) ∧
  (2 ≤ ver → l.stereo.isSome = true) ∧
  ∀ p ∈ l.notes, NoteGate ver p.2

theorem decodeNote_gate (header : Header) {s s' : Bytes} {note : Note}
    (h : decodeNote header s = .ok note s') :
    NoteGate header.format.version note := by
  unfold decodeNote at h
  obtain ⟨id, s1, hid, h⟩ := Decoder.bind_inv h
  cases hvic : header.getVannilaInstrumentCount with
  | error e =>
    rw [hvic] at h
    dsimp only at h
    obtain ⟨y, s2, hy, -⟩ := Decoder.bind_inv h
    exact DRes.noConfusion hy
  | ok count =>
  rw [hvic] at h
  dsimp only at h
  obtain ⟨instr, s2, hinstr, h⟩ := Decoder.bind_inv h
  obtain ⟨key, s3, hkey, h⟩ := Decoder.bind_inv h
  obtain ⟨vel, s4, hvel, h⟩ := Decoder.bind_inv h
  obtain ⟨pan, s5, hpan, h⟩ := Decoder.bind_inv h
  obtain ⟨pit, s6, hpit, h⟩ := Decoder.bind_inv h
  obtain ⟨hnote, -⟩ := Decoder.pure_inv h
  subst hnote
  constructor
  · intro h4
    exact ⟨pOptI8_inv_pos h4 hvel, pOptI8_inv_pos h4 hpan, pOptI16_inv_pos h4 hpit⟩
  · intro h4
    exact ⟨pOptI8_inv_neg h4 hvel, pOptI8_inv_neg h4 hpan, pOptI16_inv_neg h4 hpit⟩

theorem setNoteAt_gate {ver : Int} {layers layers' : List Layer} {idx tick : Int}
    {note : Note}
    (hset : setNoteAt layers idx tick note = some layers')
    (hall : ∀ l ∈ layers, LayerGateMid ver l)
    (hnote : NoteGate ver note) :
    ∀ l ∈ layers', LayerGateMid ver l := by
  unfold setNoteAt at hset
  split_ifs at hset with hb
  · injection hset with hset
    subst hset
    intro l hl
    rcases List.mem_or_eq_of_mem_set hl with hmem | heq
    · exact hall l hmem
    · subst heq
      have hold := hall (layers.get ⟨idx.toNat, hb.2⟩) (layers.get_mem _ _)
      refine ⟨hold.1, ?_⟩
      intro p hp
      simp only [NMap.insert, NMap.entries] at hp
      rcases List.mem_cons.mp hp with hp | hp
      · subst hp; exact hnote
      · exact hold.2 p (List.mem_of_mem_filter hp)

theorem decodeRow_gate (header : Header) (tick : Int) :
    ∀ (fuel : Nat) (layers layers' : List Layer) (layer : Int) (s s' : Bytes),
      decodeRow header tick fuel layers layer s = .ok layers' s' →
      (∀ l ∈ layers, LayerGateMid header.format.version l) →
      ∀ l ∈ layers', LayerGateMid header.format.version l := by
  intro fuel
  induction fuel with
  | zero => intro _ _ _ _ _ h; exact absurd h (by simp [decodeRow])
  | succ fuel ih =>
    intro layers layers' layer s s' h hall
    rw [decodeRow] at h
    revert h
    cases readI16 s with
    | none => intro h; exact DRes.noConfusion h
    | some p =>
      obtain ⟨jumps, s1⟩ := p
      dsimp only
      split_ifs with hj
      · intro h
        injection h with h1 h2
        subst h1
        exact hall
      · cases hn : decodeNote header s1 with
        | ok note s2 =>
          dsimp only
          cases hset : setNoteAt layers (wrap16 (layer + jumps)) tick note with
          | none => intro h; exact DRes.noConfusion h
          | some layers1 =>
            intro h
            exact ih layers1 layers' (wrap16 (layer + jumps)) s2 s' h
              (setNoteAt_gate hset hall (decodeNote_gate header hn))
        | err e => intro h; exact DRes.noConfusion h
        | panicked => intro h; exact DRes.noConfusion h

theorem decodeTicks_gate (header : Header) :
    ∀ (fuel : Nat) (layers layers' : List Layer) (tick : Int) (s s' : Bytes),
      decodeTicks header fuel layers tick s = .ok layers' s' →
      (∀ l ∈ layers, LayerGateMid header.format.version l) →
      ∀ l ∈ layers', LayerGateMid header.format.version l := by
  intro fuel
  induction fuel with
  | zero => intro _ _ _ _ _ h; exact absurd h (by simp [decodeTicks])
  | succ fuel ih =>
    intro layers layers' tick s s' h hall
    rw [decodeTicks] at h
    revert h
    cases readI16 s with
    | none => intro h; exact DRes.noConfusion h
    | some p =>
      obtain ⟨jumps, s1⟩ := p
      dsimp only
      split_ifs with hj
      · intro h
        injection h with h1 h2
        subst h1
        exact hall
      · cases hr : decodeRow header (wrap16 (tick + jumps)) fuel layers (-1) s1 with
        | ok layers1 s2 =>
          intro h
          exact ih layers1 layers' (wrap16 (tick + jumps)) s2 s' h
            (decodeRow_gate header _ fuel layers layers1 (-1) s1 s2 hr hall)
        | err e => intro h; exact DRes.noConfusion h
        | panicked => intro h; exact DRes.noConfusion h

theorem decodeLayerTable_gate (ver : Int) :
    ∀ (layers layers' : List Layer) (s s' : Bytes),
      decodeLayerTable ver layers s = .ok layers' s' →
      (∀ l ∈ layers, LayerGateMid ver l) →
      ∀ l ∈ layers', LayerGateFinal ver l := by
  intro layers
  induction layers with
  | nil =>
    intro layers' s s' h _
    obtain ⟨h1, -⟩ := Decoder.pure_inv h
    subst h1
    intro l hl
    exact absurd hl (List.not_mem_nil l)
  | cons l0 ls ih =>
    intro layers' s s' h hall
    unfold decodeLayerTable at h
    obtain ⟨name, s1, hname, h⟩ := Decoder.bind_inv h
    obtain ⟨locked, s2, hlocked, h⟩ := Decoder.bind_inv h
    obtain ⟨vol, s3, hvol, h⟩ := Decoder.bind_inv h
    obtain ⟨stereo, s4, hstereo, h⟩ := Decoder.bind_inv h
    obtain ⟨rest, s5, hrest, h⟩ := Decoder.bind_inv h
    obtain ⟨h1, -⟩ := Decoder.pure_inv h
    subst h1
    have h0 := hall l0 (by simp)
    intro l hl
    rcases List.mem_cons.mp hl with hl | hl
    · subst hl
      refine ⟨fun h4 => pOptBoolD_inv_pos h4 hlocked, ?_, ?_, ?_⟩
      · intro h4
        rw [pOptBoolD_inv_neg h4 hlocked]
        exact h0.1 h4
      · intro h2
        exact pOptI8D_inv_pos h2 hstereo
      · exact h0.2
    · exact ih rest s4 s5 hrest (fun l' hl' => hall l' (by simp [hl'])) l hl

theorem notegrid_decode_gate (header : Header) {s r : Bytes} {nb : NoteBlocks}
    (h : NoteBlocks.decode header s = .ok nb r) :
    ∀ l ∈ nb.layers, LayerGateFinal header.format.version l := by
  unfold NoteBlocks.decode at h
  revert h
  dsimp only
  cases ht : decodeTicks header (s.length + 1)
      (List.replicate header.layer_count.toNat (Layer.from_format header.format)) (-1) s with
  | ok layers1 s1 =>
    dsimp only
    cases hl : decodeLayerTable header.format.version layers1 s1 with
    | ok layers2 s2 =>
      dsimp only
      intro h
      injection h with h1 h2
      have hbase : ∀ l ∈ List.replicate header.layer_count.toNat
          (Layer.from_format header.format), LayerGateMid header.format.version l := by
        intro l hl
        rw [List.eq_of_mem_replicate hl]
        unfold Layer.from_format Layer.new
        constructor
        · intro h4
          split_ifs with hc1 hc2 <;> simp_all
        · intro p hp
          split_ifs at hp <;> exact absurd hp (List.not_mem_nil p)
      have hmid := decodeTicks_gate header _ _ layers1 (-1) s s1 ht hbase
      have hfin := decodeLayerTable_gate header.format.version layers1 layers2 s1 s2 hl hmid
      rw [← h1]
      exact hfin
    | err e => intro h; exact DRes.noConfusion h
    | panicked => intro h; exact DRes.noConfusion h
  | err e => intro h; exact DRes.noConfusion h
  | panicked => intro h; exact DRes.noConfusion h

/-- C7: decoding a well-formed version-2 extended stream yields `None` for
velocity, panning and pitch on every note and `None` for `locked` on every
layer, with `stereo` populated; decoding a version-4 stream yields `Some`
for all of velocity, panning, pitch, locked and stereo. -/
theorem version_gating :
    (∀ (h : Header) (s r : Bytes) (nb : NoteBlocks),
        h.format = .openNoteBlockStudio 2 → NoteBlocks.decode h s = .ok nb r →
        ∀ l ∈ nb.layers, l.locked = none ∧ l.stereo.isSome = true ∧
          ∀ p ∈ l.notes, p.2.velocity = none ∧ p.2.panning = none ∧ p.2.pitch = none) ∧
    (∀ (h : Header) (s r : Bytes) (nb : NoteBlocks),
        h.format = .openNoteBlockStudio 4 → NoteBlocks.decode h s = .ok nb r →
        ∀ l ∈ nb.layers, l.locked.isSome = true ∧ l.stereo.isSome = true ∧
          ∀ p ∈ l.notes, p.2.velocity.isSome = true ∧ p.2.panning.isSome = true ∧
            p.2.pitch.isSome = true) := by
  constructor
  · intro h s r nb hfmt hdec l hl
    have hg := notegrid_decode_gate h hdec l hl
    rw [hfmt] at hg
    have hv2 : ¬ (4 : Int) ≤ (NbsFormat.openNoteBlockStudio 2).version := by
      simp [NbsFormat.version]
    refine ⟨hg.2.1 hv2, hg.2.2.1 (by simp [NbsFormat.version]), ?_⟩
    intro p hp
    exact (hg.2.2.2 p hp).2 hv2
  · intro h s r nb hfmt hdec l hl
    have hg := notegrid_decode_gate h hdec l hl
    rw [hfmt] at hg
    have hv4 : (4 : Int) ≤ (NbsFormat.openNoteBlockStudio 4).version := by
      simp [NbsFormat.version]
    refine ⟨hg.1 hv4, hg.2.2.1 (by simp [NbsFormat.version]), ?_⟩
    intro p hp
    exact (hg.2.2.2 p hp).1 hv4

/-- A version-2 header with one layer. -/
def exampleHeaderV2L1 : Header :=
  { exampleHeader4 with
    version_number := some 2,
    format := NbsFormat.openNoteBlockStudio 2 }

/-- A one-note version-2 grid stream (note at tick 0, layer 0, instrument 15,
key 5) followed by its one-layer table (empty name, volume 100, stereo 7). -/
def exampleStreamV2 : Bytes :=
  [1, 0, 1, 0, 15, 5, 0, 0, 0, 0, 0, 0, 0, 0, 100, 7]

def exampleNbV2 : NoteBlocks :=
  { layers := [{ name := [],
                 locked := none,
                 volume := some 100,
                 stereo := some 7,
                 notes := ([(0, { instrument := Instrument.vanilla 15, key := 5,
                                  velocity := none, panning := none,
                                  pitch := none })] : List (Int × Note)) }] }

/-- The same song in version-4 form: the note record carries velocity 100,
panning 100, pitch 0, and the layer record carries a lock flag. -/
def exampleStreamV4 : Bytes :=
  [1, 0, 1, 0, 15, 5, 100, 100, 0, 0, 0, 0, 0, 0, 0, 0, 0, 0, 1, 100, 7]

def exampleNbV4 : NoteBlocks :=
  { layers := [{ name := [],
                 locked := some true,
                 volume := some 100,
                 stereo := some 7,
                 notes := ([(0, { instrument := Instrument.vanilla 15, key := 5,
                                  velocity := some 100, panning := some 100,
                                  pitch := some 0 })] : List (Int × Note)) }] }

/-- Witness for C7 on concrete well-formed version-2 and version-4 streams. -/
theorem version_gating_witness :
    NoteBlocks.decode exampleHeaderV2L1 exampleStreamV2 = .ok exampleNbV2 [] ∧
    (∀ l ∈ exampleNbV2.layers, l.locked = none ∧ l.stereo.isSome = true ∧
      ∀ p ∈ l.notes, p.2.velocity = none ∧ p.2.panning = none ∧ p.2.pitch = none) ∧
    NoteBlocks.decode exampleHeader4 exampleStreamV4 = .ok exampleNbV4 [] ∧
    (∀ l ∈ exampleNbV4.layers, l.locked.isSome = true ∧ l.stereo.isSome = true ∧
      ∀ p ∈ l.notes, p.2.velocity.isSome = true ∧ p.2.panning.isSome = true ∧
        p.2.pitch.isSome = true) :=
  ⟨by decide,
   version_gating.1 exampleHeaderV2L1 exampleStreamV2 [] exampleNbV2 rfl (by decide),
   by decide,
   version_gating.2 exampleHeader4 exampleStreamV4 [] exampleNbV4 rfl (by decide)⟩

/-! ## C1: the encode/decode round trip

The development below proves the round trip for legacy-format songs and for
extended versions ≥ 3, and refutes it for versions 1–2 (whose `song_length`
is read by `Header::decode` but never written by `Header::encode`). -/

theorem wrap16_wrap16 (a b : Int) : wrap16 (a + wrap16 b) = wrap16 (a + b) := by
  unfold wrap16
  omega

theorem wrap16_ne_zero (x : Int) (h1 : 1 ≤ x) (h2 : x ≤ 65535) : wrap16 x ≠ 0 := by
  unfold wrap16
  omega

theorem readI16_i16Bytes_wrap (x : Int) (r : Bytes) :
    readI16 (i16Bytes x ++ r) = some (wrap16 x, r) := by
  have hx : 0 ≤ x % 65536 := Int.emod_nonneg x (by norm_num)
  have hx2 : x % 65536 < 65536 := Int.emod_lt_of_pos x (by norm_num)
  unfold i16Bytes readI16
  simp only [List.cons_append, List.nil_append, Option.some.injEq, Prod.mk.injEq, and_true]
  have hsum : (x % 65536).toNat % 256 + 256 * ((x % 65536).toNat / 256) =
      (x % 65536).toNat := Nat.mod_add_div _ _
  rw [hsum]
  unfold toSigned wrap16
  split <;> omega

theorem pI16_wrap (x : Int) (r : Bytes) : pI16 (i16Bytes x ++ r) = .ok (wrap16 x) r := by
  unfold pI16 liftRead
  rw [readI16_i16Bytes_wrap x r]

/-! ### Single-step lemmas for running the decoder on encoded prefixes -/

theorem stepI8 {α : Type} (k : Int → Decoder α) (x : Int) (r : Bytes)
    (h1 : -128 ≤ x) (h2 : x < 128) :
    (pI8 >>= k) (i8Bytes x ++ r) = k x r :=
  Decoder.bind_ok (pI8_ok x r h1 h2)

theorem stepI16 {α : Type} (k : Int → Decoder α) (x : Int) (r : Bytes)
    (h1 : -32768 ≤ x) (h2 : x < 32768) :
    (pI16 >>= k) (i16Bytes x ++ r) = k x r :=
  Decoder.bind_ok (pI16_ok x r h1 h2)

theorem stepI16wrap {α : Type} (k : Int → Decoder α) (x : Int) (r : Bytes) :
    (pI16 >>= k) (i16Bytes x ++ r) = k (wrap16 x) r :=
  Decoder.bind_ok (pI16_wrap x r)

theorem stepI32 {α : Type} (k : Int → Decoder α) (x : Int) (r : Bytes)
    (h1 : -2147483648 ≤ x) (h2 : x < 2147483648) :
    (pI32 >>= k) (i32Bytes x ++ r) = k x r :=
  Decoder.bind_ok (pI32_ok x r h1 h2)

theorem stepString {α : Type} (k : Bytes → Decoder α) (str : Bytes) (r : Bytes)
    (hv : validUtf8 str = true) (hl : (str.length : Int) < 2147483648) :
    (pString >>= k) (write_string str ++ r) = k str r :=
  Decoder.bind_ok (pString_ok str r hv hl)

theorem boolByte (b : Bool) : (((if b then (1 : Int) else 0)) == 1) = b := by
  cases b <;> rfl

theorem pBool_ok (b : Bool) (r : Bytes) :
    pBool (i8Bytes (if b then 1 else 0) ++ r) = .ok b r := by
  unfold pBool
  rw [Decoder.map_ok (pI8_ok (if b then 1 else 0) r (by split <;> norm_num)
    (by split <;> norm_num))]
  rw [boolByte]

theorem stepBool {α : Type} (k : Bool → Decoder α) (b : Bool) (r : Bytes) :
    (pBool >>= k) (i8Bytes (if b then 1 else 0) ++ r) = k b r :=
  Decoder.bind_ok (pBool_ok b r)

theorem stepVersionLegacy {α : Type} (k : NbsFormat → Decoder α) (old : Int)
    (hne : old ≠ 0) (s : Bytes) :
    (pVersion old >>= k) s = k .noteBlockStudio s := by
  unfold pVersion
  rw [if_pos hne]
  exact Decoder.bind_ok rfl

theorem stepVersionNew {α : Type} (k : NbsFormat → Decoder α) (v : Int) (r : Bytes)
    (h1 : -128 ≤ v) (h2 : v < 128) :
    (pVersion 0 >>= k) (i8Bytes v ++ r) = k (.openNoteBlockStudio v) r := by
  unfold pVersion
  rw [if_neg (by norm_num)]
  exact Decoder.bind_ok (Decoder.map_ok (pI8_ok v r h1 h2))

theorem stepOptI8pos {α : Type} {c : Prop} [Decidable c] (hc : c)
    (k : Option Int → Decoder α) (x : Int) (r : Bytes) (h1 : -128 ≤ x) (h2 : x < 128) :
    (pOptI8 c >>= k) (i8Bytes x ++ r) = k (some x) r := by
  unfold pOptI8
  rw [if_pos hc]
  exact Decoder.bind_ok (Decoder.map_ok (pI8_ok x r h1 h2))

theorem stepOptI8neg {α : Type} {c : Prop} [Decidable c] (hc : ¬c)
    (k : Option Int → Decoder α) (s : Bytes) :
    (pOptI8 c >>= k) s = k none s := by
  unfold pOptI8
  rw [if_neg hc]
  exact Decoder.bind_ok rfl

theorem stepOptI16pos {α : Type} {c : Prop} [Decidable c] (hc : c)
    (k : Option Int → Decoder α) (x : Int) (r : Bytes) (h1 : -32768 ≤ x) (h2 : x < 32768) :
    (pOptI16 c >>= k) (i16Bytes x ++ r) = k (some x) r := by
  unfold pOptI16
  rw [if_pos hc]
  exact Decoder.bind_ok (Decoder.map_ok (pI16_ok x r h1 h2))

theorem stepOptI16neg {α : Type} {c : Prop} [Decidable c] (hc : ¬c)
    (k : Option Int → Decoder α) (s : Bytes) :
    (pOptI16 c >>= k) s = k none s := by
  unfold pOptI16
  rw [if_neg hc]
  exact Decoder.bind_ok rfl

theorem stepOptBoolpos {α : Type} {c : Prop} [Decidable c] (hc : c)
    (k : Option Bool → Decoder α) (b : Bool) (r : Bytes) :
    (pOptBool c >>= k) (i8Bytes (if b then 1 else 0) ++ r) = k (some b) r := by
  unfold pOptBool
  rw [if_pos hc]
  refine Decoder.bind_ok ?_
  rw [Decoder.map_ok (pI8_ok (if b then 1 else 0) r (by split <;> norm_num)
    (by split <;> norm_num))]
  rw [boolByte]

theorem stepOptBoolneg {α : Type} {c : Prop} [Decidable c] (hc : ¬c)
    (k : Option Bool → Decoder α) (s : Bytes) :
    (pOptBool c >>= k) s = k none s := by
  unfold pOptBool
  rw [if_neg hc]
  exact Decoder.bind_ok rfl

theorem stepOptBoolDpos {α : Type} {c : Prop} [Decidable c] (hc : c) (d : Option Bool)
    (k : Option Bool → Decoder α) (b : Bool) (r : Bytes) :
    (pOptBoolD c d >>= k) (i8Bytes (if b then 1 else 0) ++ r) = k (some b) r := by
  unfold pOptBoolD
  rw [if_pos hc]
  refine Decoder.bind_ok ?_
  rw [Decoder.map_ok (pI8_ok (if b then 1 else 0) r (by split <;> norm_num)
    (by split <;> norm_num))]
  rw [boolByte]

theorem stepOptBoolDneg {α : Type} {c : Prop} [Decidable c] (hc : ¬c) (d : Option Bool)
    (k : Option Bool → Decoder α) (s : Bytes) :
    (pOptBoolD c d >>= k) s = k d s := by
  unfold pOptBoolD
  rw [if_neg hc]
  exact Decoder.bind_ok rfl

theorem stepOptI8Dpos {α : Type} {c : Prop} [Decidable c] (hc : c) (d : Option Int)
    (k : Option Int → Decoder α) (x : Int) (r : Bytes) (h1 : -128 ≤ x) (h2 : x < 128) :
    (pOptI8D c d >>= k) (i8Bytes x ++ r) = k (some x) r := by
  unfold pOptI8D
  rw [if_pos hc]
  exact Decoder.bind_ok (Decoder.map_ok (pI8_ok x r h1 h2))

theorem stepOptI8Dneg {α : Type} {c : Prop} [Decidable c] (hc : ¬c) (d : Option Int)
    (k : Option Int → Decoder α) (s : Bytes) :
    (pOptI8D c d >>= k) s = k d s := by
  unfold pOptI8D
  rw [if_neg hc]
  exact Decoder.bind_ok rfl

/-! ### Validity: a song all of whose fields fit their wire representation -/

def i8Range (x : Int) : Bool := -128 ≤ x && x < 128

def i16Range (x : Int) : Bool := -32768 ≤ x && x < 32768

def i32Range (x : Int) : Bool := -2147483648 ≤ x && x < 2147483648

def validStr (s : Bytes) : Bool := validUtf8 s && (s.length < 2147483648)

def validOptI8 : Option Int → Bool
  | some x => i8Range x
  | none => false

def validOptI16 : Option Int → Bool
  | some x => i16Range x
  | none => false

def validHeaderCommon (h : Header) : Bool :=
  i16Range h.layer_count && validStr h.song_name && validStr h.song_author &&
  validStr h.original_song_author && validStr h.song_description &&
  i16Range h.song_tempo && i8Range h.auto_saving_duration && i8Range h.time_signature &&
  i32Range h.minutes_spent && i32Range h.left_clicks && i32Range h.right_clicks &&
  i32Range h.noteblocks_added && i32Range h.noteblocks_removed &&
  validStr h.imported_file_name

/-- Format-specific validity: for the legacy format the detection sentinel is
nonzero, every new-format slot is empty; for the extended format the sentinel
is zero, the version byte matches the format, and the new-format slots hold
in-range values (`song_length` only from version 3, matching what encode
writes). -/
def validHeader (h : Header) : Bool :=
  validHeaderCommon h &&
  match h.format with
  | .noteBlockStudio =>
      (h.old_song_length != 0) && i16Range h.old_song_length &&
      (h.version_number == none) && (h.vannila_instrument_count == none) &&
      (h.song_length == none) && (h.is_loop == none) && (h.max_loop_count == none) &&
      (h.loop_start_tick == none)
  | .openNoteBlockStudio v =>
      (h.old_song_length == 0) && (h.version_number == some v) && i8Range v &&
      validOptI8 h.vannila_instrument_count &&
      (if 3 ≤ v then validOptI16 h.song_length else h.song_length == none) &&
      h.is_loop.isSome && validOptI8 h.max_loop_count && validOptI16 h.loop_start_tick

def validInstrument (count : Int) : Instrument → Bool
  | .vanilla id => i8Range id && id < count
  | .custom id => i8Range id && count ≤ id

def validNoteFields (ver : Int) (n : Note) : Bool :=
  if 4 ≤ ver then
    validOptI8 n.velocity && validOptI8 n.panning && validOptI16 n.pitch
  else
    (n.velocity == none) && (n.panning == none) && (n.pitch == none)

def validNote (ver count : Int) (n : Note) : Bool :=
  validInstrument count n.instrument && i8Range n.key && validNoteFields ver n

def validEntry (ver count : Int) (p : Int × Note) : Bool :=
  (0 ≤ p.1 && p.1 < 32768) && validNote ver count p.2

def validLayer (ver count : Int) (l : Layer) : Bool :=
  validStr l.name &&
  (if 4 ≤ ver then l.locked.isSome else l.locked == none) &&
  validOptI8 l.volume &&
  (if 2 ≤ ver then validOptI8 l.stereo else l.stereo == none) &&
  l.notes.all (validEntry ver count)

def validCIEntry (idx : Int) (e : CustomInstrumentInfo) : Bool :=
  (e.instrument == Instrument.custom (wrap8 (idx + 16))) &&
  validStr e.name && validStr e.file_name && i8Range e.pitch

def validCIList : Int → List CustomInstrumentInfo → Bool
  | _, [] => true
  | idx, e :: es => validCIEntry idx e && validCIList (idx + 1) es

def validCustomInstruments (ci : CustomInstruments) : Bool :=
  (ci.instruments.length < 128) && validCIList 0 ci.instruments

/-- A validly constructed song: every field present exactly as its format
requires and within its wire range, the layer count in sync with the layer
list, note instruments classified consistently with the resolved
vanilla-instrument count, and custom-instrument ids carrying the decode-time
labels. -/
def validNbs (n : Nbs) : Bool :=
  validHeader n.header &&
  (n.header.layer_count == (n.noteblocks.layers.length : Int)) &&
  (match n.header.getVannilaInstrumentCount with
   | .ok count => n.noteblocks.layers.all (validLayer n.format.version count)
   | .error _ => false) &&
  validCustomInstruments n.custom_instruments

/-! ### Field-for-field equality of songs, note maps compared by lookup -/

def Layer.equivL (a b : Layer) : Prop :=
  a.name = b.name ∧ a.locked = b.locked ∧ a.volume = b.volume ∧ a.stereo = b.stereo ∧
  ∀ k : Int, NMap.get? a.notes k = NMap.get? b.notes k

/-- Song equality as the claim states it: headers and custom-instrument
tables field-for-field, layers pairwise in order, and note presence/absence
(and content) at every (tick, layer) coordinate. -/
def Nbs.equivN (a b : Nbs) : Prop :=
  a.header = b.header ∧
  List.Forall₂ Layer.equivL a.noteblocks.layers b.noteblocks.layers ∧
  a.custom_instruments = b.custom_instruments

theorem validOptI8_some {o : Option Int} (h : validOptI8 o = true) :
    ∃ x, o = some x ∧ -128 ≤ x ∧ x < 128 := by
  cases o with
  | none => exact absurd h (by simp [validOptI8])
  | some x =>
    refine ⟨x, rfl, ?_⟩
    simpa [validOptI8, i8Range, Bool.and_eq_true, decide_eq_true_eq] using h

theorem validOptI16_some {o : Option Int} (h : validOptI16 o = true) :
    ∃ x, o = some x ∧ -32768 ≤ x ∧ x < 32768 := by
  cases o with
  | none => exact absurd h (by simp [validOptI16])
  | some x =>
    refine ⟨x, rfl, ?_⟩
    simpa [validOptI16, i16Range, Bool.and_eq_true, decide_eq_true_eq] using h

theorem header_roundtrip (h : Header) (hv : validHeader h = true)
    (hfm : h.format = .noteBlockStudio ∨ 3 ≤ h.format.version) :
    ∃ bs, Header.encode h h.format = .ok bs ∧ ∀ r, Header.decode (bs ++ r) = .ok h r := by
  obtain ⟨old, vn, vic, sl, lc, nm, au, oa, de, tp, asv, ad, ts, ms, lcl, rcl, na, nr,
    ifn, il, mlc, lst, fmt⟩ := h
  unfold validHeader validHeaderCommon at hv
  cases fmt with
  | noteBlockStudio =>
    simp only [Bool.and_eq_true, bne_iff_ne, beq_iff_eq, i16Range, i8Range, i32Range,
      validStr, decide_eq_true_eq, and_assoc] at hv
    obtain ⟨hlc1, hlc2, hnm1, hnm2, hau1, hau2, hoa1, hoa2, hde1, hde2, htp1, htp2,
      had1, had2, hts1, hts2, hms1, hms2, hlcl1, hlcl2, hrcl1, hrcl2, hna1, hna2,
      hnr1, hnr2, hifn1, hifn2, hold0, holdr1, holdr2, hvn, hvic, hsl, hil, hmlc,
      hlst⟩ := hv
    subst hvn hvic hsl hil hmlc hlst
    have hnm3 : ((nm.length : Int)) < 2147483648 := by omega
    have hau3 : ((au.length : Int)) < 2147483648 := by omega
    have hoa3 : ((oa.length : Int)) < 2147483648 := by omega
    have hde3 : ((de.length : Int)) < 2147483648 := by omega
    have hifn3 : ((ifn.length : Int)) < 2147483648 := by omega
    refine ⟨i16Bytes old ++ ([] ++ ([] ++ (i16Bytes lc ++ (write_string nm ++
      (write_string au ++ (write_string oa ++ (write_string de ++ (i16Bytes tp ++
      (i8Bytes (if asv then 1 else 0) ++ (i8Bytes ad ++ (i8Bytes ts ++
      (i32Bytes ms ++ (i32Bytes lcl ++ (i32Bytes rcl ++ (i32Bytes na ++
      (i32Bytes nr ++ (write_string ifn ++ []))))))))))))))))), ?_, ?_⟩
    · rfl
    · intro r
      simp only [List.nil_append, List.append_nil, List.append_assoc]
      unfold Header.decode
      rw [stepI16 _ old _ holdr1 holdr2]
      rw [stepVersionLegacy _ old hold0]
      dsimp only
      rw [stepOptI8neg (by simp [NbsFormat.is_new])]
      rw [stepOptI16neg (by simp [NbsFormat.is_new])]
      rw [stepI16 _ lc _ hlc1 hlc2]
      rw [stepString _ nm _ hnm1 hnm3]
      rw [stepString _ au _ hau1 hau3]
      rw [stepString _ oa _ hoa1 hoa3]
      rw [stepString _ de _ hde1 hde3]
      rw [stepI16 _ tp _ htp1 htp2]
      rw [stepBool _ asv]
      rw [stepI8 _ ad _ had1 had2]
      rw [stepI8 _ ts _ hts1 hts2]
      rw [stepI32 _ ms _ hms1 hms2]
      rw [stepI32 _ lcl _ hlcl1 hlcl2]
      rw [stepI32 _ rcl _ hrcl1 hrcl2]
      rw [stepI32 _ na _ hna1 hna2]
      rw [stepI32 _ nr _ hnr1 hnr2]
      rw [stepString _ ifn _ hifn1 hifn3]
      rw [stepOptBoolneg (by simp [NbsFormat.is_new])]
      rw [stepOptI8neg (by simp [NbsFormat.is_new])]
      rw [stepOptI16neg (by simp [NbsFormat.is_new])]
      rfl
  | openNoteBlockStudio v =>
    have h3 : 3 ≤ v := by
      rcases hfm with hl | hr
      · exact absurd hl (by simp)
      · simpa [NbsFormat.version] using hr
    simp only [Bool.and_eq_true, beq_iff_eq, i16Range, i8Range, i32Range,
      validStr, decide_eq_true_eq, if_pos h3, and_assoc] at hv
    obtain ⟨hlc1, hlc2, hnm1, hnm2, hau1, hau2, hoa1, hoa2, hde1, hde2, htp1, htp2,
      had1, had2, hts1, hts2, hms1, hms2, hlcl1, hlcl2, hrcl1, hrcl2, hna1, hna2,
      hnr1, hnr2, hifn1, hifn2, hold0, hvn, hvr1, hvr2, hvic, hsl, hil, hmlc,
      hlst⟩ := hv
    subst hold0 hvn
    obtain ⟨c, hvic2, hc1, hc2⟩ := validOptI8_some hvic
    obtain ⟨slv, hsl2, hsl3, hsl4⟩ := validOptI16_some hsl
    obtain ⟨ilv, hil2⟩ := Option.isSome_iff_exists.mp hil
    obtain ⟨mlcv, hmlc2, hm1, hm2⟩ := validOptI8_some hmlc
    obtain ⟨lstv, hlst2, hl1, hl2⟩ := validOptI16_some hlst
    subst hvic2 hsl2 hil2 hmlc2 hlst2
    have hnm3 : ((nm.length : Int)) < 2147483648 := by omega
    have hau3 : ((au.length : Int)) < 2147483648 := by omega
    have hoa3 : ((oa.length : Int)) < 2147483648 := by omega
    have hde3 : ((de.length : Int)) < 2147483648 := by omega
    have hifn3 : ((ifn.length : Int)) < 2147483648 := by omega
    have h0 : (0 : Int) < v := by omega
    refine ⟨i16Bytes 0 ++ ((i8Bytes v ++ i8Bytes c) ++ (i16Bytes slv ++ (i16Bytes lc ++
      (write_string nm ++ (write_string au ++ (write_string oa ++ (write_string de ++
      (i16Bytes tp ++ (i8Bytes (if asv then 1 else 0) ++ (i8Bytes ad ++ (i8Bytes ts ++
      (i32Bytes ms ++ (i32Bytes lcl ++ (i32Bytes rcl ++ (i32Bytes na ++
      (i32Bytes nr ++ (write_string ifn ++ (i8Bytes (if ilv then 1 else 0) ++
      (i8Bytes mlcv ++ i16Bytes lstv))))))))))))))))))), ?_, ?_⟩
    · simp [Header.encode, NbsFormat.version, okOr, h0, h3, Bind.bind, Except.bind]
    · intro r
      simp only [List.nil_append, List.append_nil, List.append_assoc]
      unfold Header.decode
      rw [stepI16 _ 0 _ (by norm_num) (by norm_num)]
      rw [stepVersionNew _ v _ hvr1 hvr2]
      dsimp only
      rw [stepOptI8pos (by simp [NbsFormat.is_new]) _ c _ hc1 hc2]
      rw [stepOptI16pos (by simp [NbsFormat.is_new]) _ slv _ hsl3 hsl4]
      rw [stepI16 _ lc _ hlc1 hlc2]
      rw [stepString _ nm _ hnm1 hnm3]
      rw [stepString _ au _ hau1 hau3]
      rw [stepString _ oa _ hoa1 hoa3]
      rw [stepString _ de _ hde1 hde3]
      rw [stepI16 _ tp _ htp1 htp2]
      rw [stepBool _ asv]
      rw [stepI8 _ ad _ had1 had2]
      rw [stepI8 _ ts _ hts1 hts2]
      rw [stepI32 _ ms _ hms1 hms2]
      rw [stepI32 _ lcl _ hlcl1 hlcl2]
      rw [stepI32 _ rcl _ hrcl1 hrcl2]
      rw [stepI32 _ na _ hna1 hna2]
      rw [stepI32 _ nr _ hnr1 hnr2]
      rw [stepString _ ifn _ hifn1 hifn3]
      rw [stepOptBoolpos (by simp [NbsFormat.is_new]) _ ilv]
      rw [stepOptI8pos (by simp [NbsFormat.is_new]) _ mlcv _ hm1 hm2]
      rw [stepOptI16pos (by simp [NbsFormat.is_new]) _ lstv _ hl1 hl2]
      rfl

/-! ### Custom-instrument table round trip -/

/-- The wire image of one custom-instrument entry. -/
def ciEntryWire (ins : CustomInstrumentInfo) : Bytes :=
  write_string ins.name ++ (write_string ins.file_name ++
    (i8Bytes ins.pitch ++ i8Bytes (if ins.press_key then 1 else 0)))

theorem customInstruments_encode_eq (ci : CustomInstruments) :
    ci.encode = .ok (i8Bytes (ci.instruments.length : Int) ++
      (ci.instruments.map ciEntryWire).flatten) := rfl

theorem decodeInstrumentList_roundtrip (es : List CustomInstrumentInfo) :
    ∀ (idx : Int) (r : Bytes), validCIList idx es = true →
      decodeInstrumentList es.length idx ((es.map ciEntryWire).flatten ++ r) = .ok es r := by
  induction es with
  | nil =>
    intro idx r _
    rfl
  | cons e es ih =>
    intro idx r hv
    obtain ⟨instr, nm, fn, pitch, pk⟩ := e
    unfold validCIList validCIEntry at hv
    simp only [Bool.and_eq_true, beq_iff_eq, i8Range, validStr, decide_eq_true_eq,
      and_assoc] at hv
    obtain ⟨hins, hnm1, hnm2, hfn1, hfn2, hp1, hp2, hrest⟩ := hv
    subst hins
    have hnm3 : ((nm.length : Int)) < 2147483648 := by omega
    have hfn3 : ((fn.length : Int)) < 2147483648 := by omega
    show decodeInstrumentList (es.length + 1) idx _ = _
    unfold decodeInstrumentList
    simp only [List.map_cons, List.flatten_cons, ciEntryWire, List.append_assoc]
    rw [stepString _ nm _ hnm1 hnm3]
    rw [stepString _ fn _ hfn1 hfn3]
    rw [stepI8 _ pitch _ hp1 hp2]
    rw [stepI8 _ (if pk then 1 else 0) _ (by split <;> norm_num) (by split <;> norm_num)]
    rw [Decoder.bind_ok (ih (idx + 1) r hrest)]
    unfold Decoder.pure
    rw [boolByte]

theorem customInstruments_roundtrip (ci : CustomInstruments)
    (hv : validCustomInstruments ci = true) :
    ∃ bs, ci.encode = .ok bs ∧ ∀ r, CustomInstruments.decode (bs ++ r) = .ok ci r := by
  obtain ⟨es⟩ := ci
  unfold validCustomInstruments at hv
  simp only [Bool.and_eq_true, decide_eq_true_eq] at hv
  obtain ⟨hlen, hlist⟩ := hv
  refine ⟨i8Bytes (es.length : Int) ++ (es.map ciEntryWire).flatten, rfl, ?_⟩
  intro r
  rw [List.append_assoc]
  unfold CustomInstruments.decode
  rw [stepI8 _ (es.length : Int) _ (by omega) (by exact_mod_cast hlen)]
  rw [show ((es.length : Int)).toNat = es.length from Int.toNat_natCast _]
  rw [Decoder.bind_ok (decodeInstrumentList_roundtrip es 0 r hlist)]
  rfl

/-! ### Note records on the wire -/

/-- The wire image of one note record (after its layer jump). -/
def noteWire (ver : Int) (n : Note) : Bytes :=
  i8Bytes n.instrument.toI8 ++ (i8Bytes n.key ++
    (if 4 ≤ ver then
      i8Bytes (n.velocity.getD 0) ++ (i8Bytes (n.panning.getD 0) ++ i16Bytes (n.pitch.getD 0))
    else []))

theorem encodeNoteBytes_eq (ver : Int) (n : Note) (hv : validNoteFields ver n = true) :
    encodeNoteBytes ver n = .ok (noteWire ver n) := by
  unfold validNoteFields at hv
  unfold encodeNoteBytes noteWire
  by_cases h4 : 4 ≤ ver
  · rw [if_pos h4] at hv
    simp only [Bool.and_eq_true, and_assoc] at hv
    obtain ⟨hvel, hpan, hpit⟩ := hv
    obtain ⟨v1, hv1, -, -⟩ := validOptI8_some hvel
    obtain ⟨p1, hp1, -, -⟩ := validOptI8_some hpan
    obtain ⟨t1, ht1, -, -⟩ := validOptI16_some hpit
    simp [h4, hv1, hp1, ht1, okOr, Bind.bind, Except.bind]
  · simp [h4, Bind.bind, Except.bind]

theorem Decoder.bind_pure_l {α β : Type} (a : α) (f : α → Decoder β) (s : Bytes) :
    (Decoder.pure a >>= f) s = f a s := rfl

theorem decodeNote_roundtrip (header : Header) (count : Int)
    (hcount : header.getVannilaInstrumentCount = .ok count)
    (n : Note) (hv : validNote header.format.version count n = true) (r : Bytes) :
    decodeNote header (noteWire header.format.version n ++ r) = .ok n r := by
  obtain ⟨instr, key, vel, pan, pit⟩ := n
  unfold validNote at hv
  simp only [Bool.and_eq_true, and_assoc] at hv
  obtain ⟨hinstr, hkey, hfields⟩ := hv
  simp only [i8Range, Bool.and_eq_true, decide_eq_true_eq] at hkey
  unfold noteWire decodeNote
  simp only [List.append_assoc]
  have hinstr8 : -128 ≤ Instrument.toI8 instr ∧ Instrument.toI8 instr < 128 := by
    unfold validInstrument at hinstr
    cases instr <;>
      simp only [Instrument.toI8] <;>
      simp only [Bool.and_eq_true, i8Range, decide_eq_true_eq] at hinstr <;>
      exact ⟨hinstr.1.1, hinstr.1.2⟩
  rw [stepI8 _ (Instrument.toI8 instr) _ hinstr8.1 hinstr8.2]
  rw [hcount]
  dsimp only
  have hclass : classifyInstrument count (Instrument.toI8 instr) = instr := by
    unfold validInstrument at hinstr
    cases instr with
    | vanilla id =>
      simp only [Bool.and_eq_true, i8Range, decide_eq_true_eq] at hinstr
      simp only [classifyInstrument, Instrument.toI8]
      rw [if_neg (by omega)]
    | custom id =>
      simp only [Bool.and_eq_true, i8Range, decide_eq_true_eq] at hinstr
      simp only [classifyInstrument, Instrument.toI8]
      rw [if_pos (by omega)]
  rw [Decoder.bind_pure_l]
  rw [hclass]
  rw [stepI8 _ key _ hkey.1 hkey.2]
  unfold validNoteFields at hfields
  by_cases h4 : 4 ≤ header.format.version
  · rw [if_pos h4] at hfields ⊢
    simp only [Bool.and_eq_true, and_assoc] at hfields
    obtain ⟨hvel, hpan, hpit⟩ := hfields
    obtain ⟨v1, hv1, hv2, hv3⟩ := validOptI8_some hvel
    obtain ⟨p1, hp1, hp2, hp3⟩ := validOptI8_some hpan
    obtain ⟨t1, ht1, ht2, ht3⟩ := validOptI16_some hpit
    subst hv1 hp1 ht1
    simp only [Option.getD_some, List.append_assoc]
    rw [stepOptI8pos h4 _ v1 _ hv2 hv3]
    rw [stepOptI8pos h4 _ p1 _ hp2 hp3]
    rw [stepOptI16pos h4 _ t1 _ ht2 ht3]
    rfl
  · rw [if_neg h4] at hfields ⊢
    simp only [Bool.and_eq_true, and_assoc, beq_iff_eq] at hfields
    obtain ⟨hvel, hpan, hpit⟩ := hfields
    subst hvel hpan hpit
    simp only [List.nil_append]
    rw [stepOptI8neg h4]
    rw [stepOptI8neg h4]
    rw [stepOptI16neg h4]
    rfl

/-! ### Setting a note at the head of the pending layers -/

theorem set_append_len {α : Type} (as : List α) (b x : α) (bs : List α) :
    (as ++ b :: bs).set as.length x = as ++ x :: bs := by
  induction as with
  | nil => rfl
  | cons a as ih => simp only [List.cons_append, List.length_cons, List.set_cons_succ, ih]

theorem get_append_len {α : Type} (as : List α) (b : α) (bs : List α)
    (h : as.length < (as ++ b :: bs).length) :
    (as ++ b :: bs).get ⟨as.length, h⟩ = b := by
  induction as with
  | nil => rfl
  | cons a as ih => exact ih (by simpa using h)

theorem setNoteAt_append (doneD : List Layer) (ld : Layer) (pds : List Layer)
    (t : Int) (note : Note) :
    setNoteAt (doneD ++ ld :: pds) (doneD.length : Int) t note =
      some (doneD ++ { ld with notes := NMap.insert ld.notes t note } :: pds) := by
  unfold setNoteAt
  have htn : ((doneD.length : Int)).toNat = doneD.length := Int.toNat_natCast _
  have hb : 0 ≤ (doneD.length : Int) ∧
      ((doneD.length : Int)).toNat < (doneD ++ ld :: pds).length := by
    refine ⟨by omega, ?_⟩
    rw [htn]
    simp [List.length_append]
  rw [dif_pos hb]
  dsimp only
  simp only [htn]
  rw [get_append_len doneD ld pds (by simp [List.length_append])]
  rw [set_append_len]

/-! ### One grid row: encode/decode simulation -/

/-- The effect of one decoded tick row on one pre-allocated layer: if the
original layer `le` holds a note at tick `t`, it is inserted into the decoded
layer `ld`. -/
def updLayer (t : Int) (ld le : Layer) : Layer :=
  match NMap.get? le.notes t with
  | some n => { ld with notes := NMap.insert ld.notes t n }
  | none => ld

/-- Number of layers carrying a note at tick `t`. -/
def rowNotes (t : Int) (layers : List Layer) : Nat :=
  (layers.filter (fun l => (NMap.get? l.notes t).isSome)).length

theorem NMap.get?_some_mem {m : NMap} {k : Int} {n : Note}
    (h : NMap.get? m k = some n) : (k, n) ∈ m := by
  unfold NMap.get? NMap.entries at h
  cases hf : List.find? (fun p => p.1 == k) m with
  | none => rw [hf] at h; simp at h
  | some p =>
    rw [hf] at h
    have hp := List.find?_some hf
    have hm := List.mem_of_find?_eq_some hf
    simp only [Option.map_some'] at h
    obtain ⟨p1, p2⟩ := p
    simp only [beq_iff_eq] at hp
    have h2 := Option.some.inj h
    dsimp only at h2 hp
    rw [← hp, ← h2]
    exact hm

theorem noteWire_len (ver : Int) (n : Note) : 2 ≤ (noteWire ver n).length := by
  unfold noteWire
  by_cases h4 : 4 ≤ ver
  · rw [if_pos h4]
    simp only [List.length_append, i8Bytes_length, i16Bytes_length]
    omega
  · rw [if_neg h4]
    simp only [List.length_append, i8Bytes_length, List.length_nil]
    omega

theorem encodeTickRow_firstJump (ver t hJ : Int) :
    ∀ (suffix : List Layer) (li vc : Int),
      (¬ ∀ l ∈ suffix, NMap.get? l.notes t = none) →
      encodeTickRow ver t hJ suffix li vc false =
        (match encodeTickRow ver t hJ suffix li vc true with
          | .ok (b, f) => .ok (i16Bytes hJ ++ b, f)
          | .error e => .error e) := by
  intro suffix
  induction suffix with
  | nil => intro li vc hne; exact absurd (by simp) hne
  | cons l ls ih =>
    intro li vc hne
    cases hget : NMap.get? l.notes t with
    | none =>
      simp only [encodeTickRow, hget]
      apply ih
      intro hall
      exact hne (fun l' hl' => by
        rcases List.mem_cons.mp hl' with h | h
        · rw [h]; exact hget
        · exact hall l' h)
    | some note =>
      simp only [encodeTickRow, hget]
      cases hnb : encodeNoteBytes ver note with
      | error e => simp [Bind.bind, Except.bind, hnb]
      | ok nb =>
        cases hrec : encodeTickRow ver t hJ ls (li + 1)
            (wrap16 (vc + wrap16 (wrap16 li - vc))) true with
        | error e => simp [Bind.bind, Except.bind, hnb, hrec]
        | ok pr =>
          obtain ⟨rb, hj⟩ := pr
          simp [Bind.bind, Except.bind, hnb, hrec]

theorem row_sim (header : Header) (count : Int)
    (hcount : header.getVannilaInstrumentCount = .ok count) (t hJ : Int) :
    ∀ (suffix pres doneD : List Layer) (vc : Int),
      pres.length = suffix.length →
      doneD.length + suffix.length ≤ 32767 →
      (∀ l ∈ suffix, l.notes.all (validEntry header.format.version count) = true) →
      -1 ≤ vc → vc < (doneD.length : Int) →
      ∃ body,
        encodeTickRow header.format.version t hJ suffix (doneD.length : Int) vc true =
          .ok (body, true) ∧
        4 * rowNotes t suffix ≤ body.length ∧
        ∀ (fuel : Nat) (r : Bytes), rowNotes t suffix < fuel →
          decodeRow header t fuel (doneD ++ pres) vc (body ++ (i16Bytes 0 ++ r)) =
            .ok (doneD ++ List.zipWith (updLayer t) pres suffix) r := by
  intro suffix
  induction suffix with
  | nil =>
    intro pres doneD vc hlen hbound hval hvc1 hvc2
    cases pres with
    | cons p ps => simp at hlen
    | nil =>
      refine ⟨[], rfl, by simp [rowNotes], ?_⟩
      intro fuel r hfuel
      have h0 : rowNotes t [] = 0 := by simp [rowNotes]
      obtain ⟨f, rfl⟩ : ∃ f, fuel = f + 1 := ⟨fuel - 1, by omega⟩
      rw [decodeRow]
      rw [List.nil_append, readI16_i16Bytes 0 r (by norm_num) (by norm_num)]
      rfl
  | cons le les ih =>
    intro pres doneD vc hlen hbound hval hvc1 hvc2
    cases pres with
    | nil => simp at hlen
    | cons ld pds =>
    have hlen' : pds.length = les.length := by simpa using hlen
    have hval' : ∀ l ∈ les, l.notes.all
        (validEntry header.format.version count) = true :=
      fun l hl => hval l (by simp [hl])
    have hbound' : doneD.length + les.length + 1 ≤ 32767 := by
      simp only [List.length_cons] at hbound; omega
    cases hget : NMap.get? le.notes t with
    | none =>
      obtain ⟨body, henc, hblen, hdec⟩ :=
        ih pds (doneD ++ [ld]) vc hlen'
          (by simp only [List.length_append, List.length_cons,
                List.length_nil]; omega)
          hval' hvc1
          (by simp only [List.length_append, List.length_cons, List.length_nil]
              push_cast
              omega)
      have hliA : (((doneD ++ [ld]).length : Nat) : Int) = (doneD.length : Int) + 1 := by
        simp [List.length_append]
      rw [hliA] at henc
      have hrn : rowNotes t (le :: les) = rowNotes t les := by
        simp [rowNotes, List.filter, hget]
      refine ⟨body, ?_, ?_, ?_⟩
      · simp only [encodeTickRow, hget]
        exact henc
      · rw [hrn]; exact hblen
      · intro fuel r hfuel
        have e1 : (doneD ++ [ld]) ++ pds = doneD ++ ld :: pds := by simp
        have e2 : (doneD ++ [ld]) ++ List.zipWith (updLayer t) pds les =
            doneD ++ List.zipWith (updLayer t) (ld :: pds) (le :: les) := by
          simp [updLayer, hget]
        rw [← e1, ← e2]
        exact hdec fuel r (by rw [hrn] at hfuel; exact hfuel)
    | some note =>
      have hvn : validNote header.format.version count note = true := by
        have hm := NMap.get?_some_mem hget
        have hall := List.all_eq_true.mp (hval le (by simp)) _ hm
        unfold validEntry at hall
        simp only [Bool.and_eq_true] at hall
        exact hall.2
      have hvnf : validNoteFields header.format.version note = true := by
        unfold validNote at hvn
        simp only [Bool.and_eq_true] at hvn
        exact hvn.2
      have hli1 : (0 : Int) ≤ (doneD.length : Int) := by omega
      have hli2 : (doneD.length : Int) ≤ 32766 := by
        simp only [List.length_cons] at hbound
        omega
      have hw1 : wrap16 (doneD.length : Int) = (doneD.length : Int) :=
        wrap16_eq_self _ (by omega) (by omega)
      have hw2 : wrap16 (wrap16 (doneD.length : Int) - vc) =
          (doneD.length : Int) - vc := by
        rw [hw1]; exact wrap16_eq_self _ (by omega) (by omega)
      have hw3 : wrap16 (vc + ((doneD.length : Int) - vc)) = (doneD.length : Int) := by
        rw [show vc + ((doneD.length : Int) - vc) = (doneD.length : Int) from by ring]
        exact hw1
      obtain ⟨body, henc, hblen, hdec⟩ :=
        ih pds (doneD ++ [{ ld with notes := NMap.insert ld.notes t note }])
          (doneD.length : Int) hlen'
          (by simp only [List.length_append, List.length_cons,
                List.length_nil]; omega)
          hval' (by omega)
          (by simp only [List.length_append, List.length_cons, List.length_nil]
              push_cast
              omega)
      have hliA : (((doneD ++ [{ ld with notes := NMap.insert ld.notes t note }]).length
          : Nat) : Int) = (doneD.length : Int) + 1 := by
        simp [List.length_append]
      rw [hliA] at henc
      have hrn : rowNotes t (le :: les) = rowNotes t les + 1 := by
        simp [rowNotes, List.filter, hget]
      refine ⟨i16Bytes ((doneD.length : Int) - vc) ++
          (noteWire header.format.version note ++ body), ?_, ?_, ?_⟩
      · simp only [encodeTickRow, hget]
        rw [hw2, hw3]
        rw [encodeNoteBytes_eq _ _ hvnf, exceptBind_ok, henc, exceptBind_ok]
        simp
      · have hnw := noteWire_len header.format.version note
        rw [hrn]
        simp only [List.length_append, i16Bytes_length]
        omega
      · intro fuel r hfuel
        obtain ⟨f, rfl⟩ : ∃ f, fuel = f + 1 := ⟨fuel - 1, by omega⟩
        rw [decodeRow]
        simp only [List.append_assoc]
        rw [readI16_i16Bytes ((doneD.length : Int) - vc) _ (by omega) (by omega)]
        dsimp only
        rw [if_neg (by omega)]
        rw [show vc + ((doneD.length : Int) - vc) = (doneD.length : Int) from by ring,
          hw1]
        rw [decodeNote_roundtrip header count hcount note hvn]
        dsimp only
        rw [setNoteAt_append]
        dsimp only
        have e1 : (doneD ++ [{ ld with notes := NMap.insert ld.notes t note }]) ++ pds =
            doneD ++ { ld with notes := NMap.insert ld.notes t note } :: pds := by
          simp
        have e2 : (doneD ++ [{ ld with notes := NMap.insert ld.notes t note }]) ++
            List.zipWith (updLayer t) pds les =
            doneD ++ List.zipWith (updLayer t) (ld :: pds) (le :: les) := by
          simp [updLayer, hget]
        rw [← e1, ← e2]
        exact hdec f r (by omega)

/-! ### The tick loop: encode/decode simulation -/

/-- Iterated row effect: apply the rows at ticks `t0, t0 + 1, ...` (`n` of
them) to the decoded layers. -/
def updRange (layersD layersE : List Layer) : Nat → Int → List Layer
  | 0, _ => layersD
  | n + 1, t0 =>
      updRange (List.zipWith (updLayer t0) layersD layersE) layersE n (t0 + 1)

theorem zipWith_updLayer_empty (t : Int) :
    ∀ (layersD layersE : List Layer), layersD.length = layersE.length →
      (∀ l ∈ layersE, NMap.get? l.notes t = none) →
      List.zipWith (updLayer t) layersD layersE = layersD := by
  intro layersD
  induction layersD with
  | nil => intro layersE _ _; simp
  | cons ld lds ih =>
    intro layersE hlen hnone
    cases layersE with
    | nil => simp at hlen
    | cons le les =>
      simp only [List.zipWith_cons_cons]
      rw [ih les (by simpa using hlen) (fun l hl => hnone l (by simp [hl]))]
      rw [show updLayer t ld le = ld from by simp [updLayer, hnone le (by simp)]]

theorem ticks_sim (header : Header) (count : Int)
    (hcount : header.getVannilaInstrumentCount = .ok count)
    (layersE : List Layer) (hL : layersE.length ≤ 32767)
    (hval : ∀ l ∈ layersE,
      l.notes.all (validEntry header.format.version count) = true) :
    ∀ (remaining : Nat) (ni hc : Int) (layersD : List Layer),
      layersD.length = layersE.length →
      -1 ≤ hc → hc < ni →
      ni + remaining ≤ 32768 →
      ∃ bytes,
        encodeTicksAux header.format.version layersE remaining ni hc = .ok bytes ∧
        ∀ (fuel : Nat) (r : Bytes), bytes.length + 2 ≤ 2 * fuel →
          decodeTicks header fuel layersD hc (bytes ++ (i16Bytes 0 ++ r)) =
            .ok (updRange layersD layersE remaining ni) r := by
  intro remaining
  induction remaining with
  | zero =>
    intro ni hc layersD hlen hhc1 hhc2 hbound
    refine ⟨[], rfl, ?_⟩
    intro fuel r hfl
    obtain ⟨f, rfl⟩ : ∃ f, fuel = f + 1 := ⟨fuel - 1, by omega⟩
    rw [List.nil_append, decodeTicks,
      readI16_i16Bytes 0 r (by norm_num) (by norm_num)]
    rfl
  | succ n ih =>
    intro ni hc layersD hlen hhc1 hhc2 hbound
    have hni0 : 0 ≤ ni := by omega
    by_cases hrow : ∀ l ∈ layersE, NMap.get? l.notes ni = none
    · obtain ⟨restB, hencR, hdecR⟩ :=
        ih (ni + 1) hc layersD hlen hhc1 (by omega) (by omega)
      refine ⟨restB, ?_, ?_⟩
      · rw [encodeTicksAux]
        rw [encodeTickRow_no_notes _ ni (wrap16 (ni - hc)) layersE 0 (-1) false hrow]
        rw [exceptBind_ok]
        dsimp only
        simp only [Bool.false_eq_true, if_false]
        rw [hencR, exceptBind_ok]
        rfl
      · intro fuel r hfl
        rw [updRange,
          zipWith_updLayer_empty ni layersD layersE hlen hrow]
        exact hdecR fuel r hfl
    · obtain ⟨body, henc, hblen, hdec⟩ :=
        row_sim header count hcount ni (wrap16 (ni - hc)) layersE layersD [] (-1)
          hlen (by simpa using hL) hval (by omega)
          (by simp)
      simp only [List.length_nil, Nat.cast_zero, List.nil_append] at henc hdec
      have hcur : wrap16 (hc + wrap16 (ni - hc)) = ni := by
        rw [wrap16_wrap16, show hc + (ni - hc) = ni from by ring]
        exact wrap16_eq_self _ (by omega) (by omega)
      obtain ⟨restB, hencR, hdecR⟩ :=
        ih (ni + 1) ni (List.zipWith (updLayer ni) layersD layersE)
          (by rw [List.length_zipWith]; omega) (by omega) (by omega) (by omega)
      refine ⟨((i16Bytes (wrap16 (ni - hc)) ++ body) ++ i16Bytes 0) ++ restB, ?_, ?_⟩
      · rw [encodeTicksAux]
        dsimp only
        rw [encodeTickRow_firstJump header.format.version ni (wrap16 (ni - hc))
          layersE 0 (-1) hrow]
        rw [henc]
        dsimp only
        rw [exceptBind_ok]
        dsimp only
        rw [if_pos rfl, if_pos rfl, hcur, hencR, exceptBind_ok]
      · intro fuel r hfl
        obtain ⟨f, rfl⟩ : ∃ f, fuel = f + 1 := ⟨fuel - 1, by omega⟩
        rw [decodeTicks]
        simp only [List.append_assoc]
        rw [readI16_i16Bytes (wrap16 (ni - hc)) _
          (by unfold wrap16; omega) (by unfold wrap16; omega)]
        dsimp only
        rw [if_neg (by
          have h1 : (1 : Int) ≤ ni - hc := by omega
          have h2 : ni - hc ≤ 65535 := by omega
          exact wrap16_ne_zero _ h1 h2)]
        rw [hcur]
        have hfrow : rowNotes ni layersE < f := by
          simp only [List.length_append, i16Bytes_length] at hfl
          omega
        rw [hdec f (restB ++ (i16Bytes 0 ++ r)) hfrow]
        dsimp only
        rw [updRange]
        exact hdecR f r (by
          simp only [List.length_append, i16Bytes_length] at hfl
          omega)

/-! ### The layer table: encode/decode round trip -/

/-- The wire image of one layer-table entry. -/
def layerWire (ver : Int) (l : Layer) : Bytes :=
  write_string l.name ++
    ((if 4 ≤ ver then i8Bytes (if l.locked.getD false then 1 else 0) else []) ++
      (i8Bytes (l.volume.getD 0) ++
        (if 2 ≤ ver then i8Bytes (l.stereo.getD 0) else [])))

/-- Grafting the decoded-table metadata of `orig` onto the grid-decoded
layer `pre`. -/
def withMeta (pre orig : Layer) : Layer :=
  { pre with
    name := orig.name
    locked := orig.locked
    volume := orig.volume
    stereo := orig.stereo }

theorem encodeLayerTable_eq (ver count : Int) :
    ∀ layers : List Layer, (∀ l ∈ layers, validLayer ver count l = true) →
      encodeLayerTable ver layers = .ok ((layers.map (layerWire ver)).flatten) := by
  intro layers
  induction layers with
  | nil => intro _; rfl
  | cons l ls ih =>
    intro hv
    have hl := hv l (by simp)
    unfold validLayer at hl
    simp only [Bool.and_eq_true, and_assoc] at hl
    obtain ⟨hname, hlock, hvol, hstereo, hnotes⟩ := hl
    obtain ⟨v1, hv1, -, -⟩ := validOptI8_some hvol
    have ihe := ih (fun l' hl' => hv l' (by simp [hl']))
    rw [encodeLayerTable]
    by_cases h4 : 4 ≤ ver
    · rw [if_pos h4] at hlock
      have h2 : 2 ≤ ver := by omega
      rw [if_pos h2] at hstereo
      obtain ⟨lk, hlk⟩ := Option.isSome_iff_exists.mp hlock
      obtain ⟨st, hst, -, -⟩ := validOptI8_some hstereo
      simp [ge_iff_le, h4, h2, hlk, hv1, hst, okOr, Bind.bind, Except.bind, ihe,
        layerWire, List.append_assoc]
    · rw [if_neg h4] at hlock
      by_cases h2 : 2 ≤ ver
      · rw [if_pos h2] at hstereo
        obtain ⟨st, hst, -, -⟩ := validOptI8_some hstereo
        simp [ge_iff_le, h4, h2, hv1, hst, okOr, Bind.bind, Except.bind, ihe,
          layerWire, List.append_assoc]
      · rw [if_neg h2] at hstereo
        simp [ge_iff_le, h4, h2, hv1, okOr, Bind.bind, Except.bind, ihe,
          layerWire, List.append_assoc]

theorem decodeLayerTable_roundtrip (ver count : Int) :
    ∀ (origs pres : List Layer),
      (∀ l ∈ origs, validLayer ver count l = true) →
      pres.length = origs.length →
      (∀ l ∈ pres, (¬ 4 ≤ ver → l.locked = none) ∧ (¬ 2 ≤ ver → l.stereo = none)) →
      ∀ r, decodeLayerTable ver pres ((origs.map (layerWire ver)).flatten ++ r) =
        .ok (List.zipWith withMeta pres origs) r := by
  intro origs
  induction origs with
  | nil =>
    intro pres hv hlen hmeta r
    cases pres with
    | cons p ps => simp at hlen
    | nil => rfl
  | cons orig os ih =>
    intro pres hv hlen hmeta r
    cases pres with
    | nil => simp at hlen
    | cons pre ps =>
    have hl := hv orig (by simp)
    unfold validLayer at hl
    simp only [Bool.and_eq_true, and_assoc] at hl
    obtain ⟨hname, hlock, hvol, hstereo, hnotes⟩ := hl
    simp only [validStr, Bool.and_eq_true, decide_eq_true_eq] at hname
    obtain ⟨v1, hv1, hv2, hv3⟩ := validOptI8_some hvol
    have hmetah := hmeta pre (by simp)
    have ihe := ih ps (fun l' hl' => hv l' (by simp [hl']))
      (by simpa using hlen) (fun l' hl' => hmeta l' (by simp [hl'])) r
    rw [decodeLayerTable]
    simp only [List.map_cons, List.flatten_cons, List.append_assoc]
    rw [layerWire]
    simp only [List.append_assoc]
    rw [stepString _ orig.name _ hname.1 (by exact_mod_cast hname.2)]
    rw [hv1]
    simp only [Option.getD_some]
    by_cases h4 : 4 ≤ ver
    · rw [if_pos h4] at hlock ⊢
      have h2 : 2 ≤ ver := by omega
      rw [if_pos h2] at hstereo ⊢
      obtain ⟨lk, hlk⟩ := Option.isSome_iff_exists.mp hlock
      obtain ⟨st, hst, hst2, hst3⟩ := validOptI8_some hstereo
      rw [hlk, hst]
      simp only [Option.getD_some]
      rw [stepOptBoolDpos h4 pre.locked _ lk]
      rw [stepI8 _ v1 _ hv2 hv3]
      rw [stepOptI8Dpos h2 pre.stereo _ st _ hst2 hst3]
      rw [Decoder.bind_ok ihe]
      unfold Decoder.pure
      simp [withMeta, hlk, hv1, hst]
    · rw [if_neg h4] at hlock ⊢
      simp only [beq_iff_eq] at hlock
      have hpl : pre.locked = none := hmetah.1 h4
      rw [List.nil_append]
      rw [stepOptBoolDneg h4 pre.locked]
      rw [stepI8 _ v1 _ hv2 hv3]
      by_cases h2 : 2 ≤ ver
      · rw [if_pos h2] at hstereo ⊢
        obtain ⟨st, hst, hst2, hst3⟩ := validOptI8_some hstereo
        rw [hst]
        simp only [Option.getD_some]
        rw [stepOptI8Dpos h2 pre.stereo _ st _ hst2 hst3]
        rw [Decoder.bind_ok ihe]
        unfold Decoder.pure
        simp [withMeta, hlock, hpl, hv1, hst]
      · rw [if_neg h2] at hstereo ⊢
        simp only [beq_iff_eq] at hstereo
        have hps : pre.stereo = none := hmetah.2 h2
        rw [List.nil_append]
        rw [stepOptI8Dneg h2 pre.stereo]
        rw [Decoder.bind_ok ihe]
        unfold Decoder.pure
        simp [withMeta, hlock, hpl, hstereo, hps, hv1]

/-! ### Bounds on `calculate_length` and accumulated-grid lookups -/

theorem nmap_get?_insert_self (m : NMap) (t : Int) (note : Note) :
    NMap.get? (NMap.insert m t note) t = some note := by
  unfold NMap.get? NMap.insert NMap.entries
  rw [List.find?_cons, show ((t, note).1 == t) = true from beq_iff_eq.mpr rfl]
  rfl

theorem mem_le_foldl_max (l : List (Int × Note)) (a : Int) (p : Int × Note)
    (hp : p ∈ l) : p.1 ≤ l.foldl (fun acc q => max acc q.1) a := by
  induction l generalizing a with
  | nil => simp at hp
  | cons q l ih =>
    simp only [List.foldl_cons]
    rcases List.mem_cons.mp hp with h | h
    · subst h
      exact le_trans (le_max_right a p.1) (le_foldl_max l (max a p.1))
    · exact ih _ h

theorem le_foldl_layers (layers : List Layer) (len : Int) :
    len ≤ layers.foldl
      (fun length layer => layer.notes.foldl (fun acc q => max acc q.1) length) len := by
  induction layers generalizing len with
  | nil => exact le_refl len
  | cons l ls ih =>
    simp only [List.foldl_cons]
    exact le_trans (le_foldl_max l.notes len) (ih _)

theorem mem_le_foldl_layers (layers : List Layer) (len : Int) (la : Layer)
    (hla : la ∈ layers) (p : Int × Note) (hp : p ∈ la.notes) :
    p.1 ≤ layers.foldl
      (fun length layer => layer.notes.foldl (fun acc q => max acc q.1) length) len := by
  induction layers generalizing len with
  | nil => simp at hla
  | cons l ls ih =>
    simp only [List.foldl_cons]
    rcases List.mem_cons.mp hla with h | h
    · subst h
      exact le_trans (mem_le_foldl_max la.notes len p hp) (le_foldl_layers ls _)
    · exact ih _ h

theorem foldl_max_ub (l : List (Int × Note)) (a B : Int) (ha : a ≤ B)
    (h : ∀ p ∈ l, p.1 ≤ B) : l.foldl (fun acc q => max acc q.1) a ≤ B := by
  induction l generalizing a with
  | nil => exact ha
  | cons q l ih =>
    simp only [List.foldl_cons]
    exact ih _ (max_le ha (h q (by simp))) (fun p hp => h p (by simp [hp]))

theorem foldl_layers_ub (layers : List Layer) (len B : Int) (hlen : len ≤ B)
    (h : ∀ la ∈ layers, ∀ p ∈ la.notes, p.1 ≤ B) :
    layers.foldl
      (fun length layer => layer.notes.foldl (fun acc q => max acc q.1) length) len ≤ B := by
  induction layers generalizing len with
  | nil => exact hlen
  | cons l ls ih =>
    simp only [List.foldl_cons]
    exact ih _ (foldl_max_ub l.notes len B hlen (h l (by simp)))
      (fun la hla p hp => h la (by simp [hla]) p hp)

theorem get?_eq_none_outside (m : NMap) (k : Int) (h : ∀ p ∈ m, p.1 ≠ k) :
    NMap.get? m k = none := by
  unfold NMap.get? NMap.entries
  rw [List.find?_eq_none.mpr (fun p hp => by simp [h p hp])]
  rfl

/-! ### The accumulated effect of the decoded grid rows -/

/-- Relation between an original layer `le` and its decoded counterpart `ld`
after the rows at ticks `[t0, T)` have been replayed: the metadata is still
that of the pre-allocated layer `L0`, and the notes agree with `le` exactly
on the replayed ticks. -/
def GridRel (L0 : Layer) (t0 T : Int) (le ld : Layer) : Prop :=
  ld.name = L0.name ∧ ld.locked = L0.locked ∧ ld.volume = L0.volume ∧
  ld.stereo = L0.stereo ∧
  ∀ k : Int, NMap.get? ld.notes k =
    if t0 ≤ k ∧ k < T then NMap.get? le.notes k else none

theorem GridRel_step (L0 : Layer) (t0 T : Int) (hT : t0 ≤ T) :
    ∀ (layersE layersD : List Layer),
      List.Forall₂ (GridRel L0 t0 T) layersE layersD →
      List.Forall₂ (GridRel L0 t0 (T + 1)) layersE
        (List.zipWith (updLayer T) layersD layersE) := by
  intro layersE layersD h
  induction h with
  | nil => exact List.Forall₂.nil
  | cons hpair hrest ihr =>
    rename_i le ld les lds
    simp only [List.zipWith_cons_cons]
    refine List.Forall₂.cons ?_ ihr
    obtain ⟨hn, hlk, hvo, hst, hlook⟩ := hpair
    cases hget : NMap.get? le.notes T with
    | none =>
      refine ⟨?_, ?_, ?_, ?_, ?_⟩ <;> simp only [updLayer, hget]
      · exact hn
      · exact hlk
      · exact hvo
      · exact hst
      · intro k
        by_cases hk : k = T
        · subst hk
          rw [hlook k, if_neg (by omega), if_pos ⟨hT, by omega⟩, hget]
        · rw [hlook k]
          by_cases hkr : t0 ≤ k ∧ k < T
          · rw [if_pos hkr, if_pos ⟨hkr.1, by omega⟩]
          · rw [if_neg hkr, if_neg (by omega)]
    | some note =>
      refine ⟨?_, ?_, ?_, ?_, ?_⟩ <;> simp only [updLayer, hget]
      · exact hn
      · exact hlk
      · exact hvo
      · exact hst
      · intro k
        by_cases hk : k = T
        · subst hk
          rw [nmap_get?_insert_self, if_pos ⟨hT, by omega⟩, hget]
        · rw [nmap_get?_insert_ne _ _ _ _ hk, hlook k]
          by_cases hkr : t0 ≤ k ∧ k < T
          · rw [if_pos hkr, if_pos ⟨hkr.1, by omega⟩]
          · rw [if_neg hkr, if_neg (by omega)]

theorem updRange_rel (L0 : Layer) (t0 : Int) :
    ∀ (n : Nat) (T : Int), t0 ≤ T →
      ∀ (layersE layersD : List Layer),
        List.Forall₂ (GridRel L0 t0 T) layersE layersD →
        List.Forall₂ (GridRel L0 t0 (T + n)) layersE (updRange layersD layersE n T) := by
  intro n
  induction n with
  | zero =>
    intro T hT layersE layersD h
    simpa using h
  | succ n ih =>
    intro T hT layersE layersD h
    rw [updRange]
    have := ih (T + 1) (by omega) layersE _ (GridRel_step L0 t0 T hT layersE layersD h)
    rw [show (T + 1) + (n : Int) = T + ((n : Nat) + 1 : Nat) from by push_cast; ring] at this
    exact this

theorem GridRel_base (L0 : Layer) (hL0 : L0.notes = ([] : List (Int × Note)))
    (t0 : Int) :
    ∀ layersE : List Layer,
      List.Forall₂ (GridRel L0 t0 t0) layersE (List.replicate layersE.length L0) := by
  intro layersE
  induction layersE with
  | nil => exact List.Forall₂.nil
  | cons le les ih =>
    simp only [List.length_cons, List.replicate_succ]
    refine List.Forall₂.cons ⟨rfl, rfl, rfl, rfl, ?_⟩ ih
    intro k
    rw [if_neg (by omega), hL0]
    rfl

/-! ### The note-block section: full round trip -/

theorem forall₂_mem_right {α β : Type} {R : α → β → Prop} :
    ∀ {l1 : List α} {l2 : List β}, List.Forall₂ R l1 l2 →
      ∀ b ∈ l2, ∃ a ∈ l1, R a b := by
  intro l1 l2 h
  induction h with
  | nil => intro b hb; simp at hb
  | cons hpair hrest ihr =>
    intro b hb
    rcases List.mem_cons.mp hb with h | h
    · exact ⟨_, by simp, h ▸ hpair⟩
    · obtain ⟨a, ha, hr⟩ := ihr b h
      exact ⟨a, by simp [ha], hr⟩

theorem from_format_locked (fmt : NbsFormat) (h : ¬ 4 ≤ fmt.version) :
    (Layer.from_format fmt).locked = none := by
  unfold Layer.from_format Layer.new
  dsimp only
  rw [if_neg (show ¬ fmt.version ≥ 4 from h)]
  split_ifs <;> rfl

theorem from_format_stereo (fmt : NbsFormat) (h : ¬ 2 ≤ fmt.version) :
    (Layer.from_format fmt).stereo = none := by
  unfold Layer.from_format Layer.new
  dsimp only
  rw [if_neg (show ¬ fmt.version ≥ 4 from by omega),
    if_neg (show ¬ fmt.version ≥ 2 from h)]

theorem from_format_notes (fmt : NbsFormat) :
    (Layer.from_format fmt).notes = ([] : List (Int × Note)) := by
  unfold Layer.from_format Layer.new
  dsimp only
  split_ifs <;> rfl

theorem final_equiv (L0 : Layer) (T : Int) :
    ∀ (les lds : List Layer),
      List.Forall₂ (GridRel L0 0 T) les lds →
      (∀ le ∈ les, ∀ k : Int, ¬(0 ≤ k ∧ k < T) → NMap.get? le.notes k = none) →
      List.Forall₂ Layer.equivL (List.zipWith withMeta lds les) les := by
  intro les lds h
  induction h with
  | nil => intro _; exact List.Forall₂.nil
  | cons hpair hrest ihr =>
    rename_i le ld les' lds'
    intro hout
    simp only [List.zipWith_cons_cons]
    refine List.Forall₂.cons ?_ (ihr (fun le' hl' k hk => hout le' (by simp [hl']) k hk))
    obtain ⟨hn, hlk, hvo, hst, hlook⟩ := hpair
    refine ⟨rfl, rfl, rfl, rfl, ?_⟩
    intro k
    show NMap.get? ld.notes k = NMap.get? le.notes k
    rw [hlook k]
    by_cases hk : 0 ≤ k ∧ k < T
    · rw [if_pos hk]
    · rw [if_neg hk, hout le (by simp) k hk]

theorem noteblocks_roundtrip (header : Header) (count : Int)
    (hcount : header.getVannilaInstrumentCount = .ok count)
    (nb : NoteBlocks)
    (hlc : header.layer_count = (nb.layers.length : Int))
    (hlenb : nb.layers.length ≤ 32767)
    (hval : nb.layers.all (validLayer header.format.version count) = true) :
    ∃ bs outLayers, NoteBlocks.encode nb header.format = .ok bs ∧
      (∀ r, NoteBlocks.decode header (bs ++ r) = .ok { layers := outLayers } r) ∧
      List.Forall₂ Layer.equivL outLayers nb.layers := by
  have hvalp : ∀ l ∈ nb.layers, validLayer header.format.version count l = true :=
    fun l hl => List.all_eq_true.mp hval l hl
  have hvalnotes : ∀ l ∈ nb.layers,
      l.notes.all (validEntry header.format.version count) = true := by
    intro l hl
    have hx := hvalp l hl
    unfold validLayer at hx
    simp only [Bool.and_eq_true, and_assoc] at hx
    exact hx.2.2.2.2
  have hentry : ∀ l ∈ nb.layers, ∀ p ∈ l.notes, 0 ≤ p.1 ∧ p.1 < 32768 := by
    intro l hl p hp
    have hx := List.all_eq_true.mp (hvalnotes l hl) p hp
    unfold validEntry at hx
    simp only [Bool.and_eq_true, and_assoc, decide_eq_true_eq] at hx
    exact ⟨hx.1, hx.2.1⟩
  have hcl : nb.calculate_length = nb.layers.foldl
      (fun length layer => layer.notes.foldl (fun acc q => max acc q.1) length) 0 :=
    calculate_length_as_foldl nb.layers 0
  have hlen0 : 0 ≤ nb.calculate_length := by
    rw [hcl]; exact foldl_nonneg_layers nb.layers 0 le_rfl
  have hlenU : nb.calculate_length ≤ 32767 := by
    rw [hcl]
    exact foldl_layers_ub nb.layers 0 32767 (by norm_num)
      (fun la hla p hp => by have := hentry la hla p hp; omega)
  have hkeyle : ∀ la ∈ nb.layers, ∀ p ∈ la.notes, p.1 ≤ nb.calculate_length := by
    intro la hla p hp
    rw [hcl]
    exact mem_le_foldl_layers nb.layers 0 la hla p hp
  have hcnt : header.layer_count.toNat = nb.layers.length := by
    rw [hlc]; exact Int.toNat_natCast _
  obtain ⟨gridB, hencG, hdecG⟩ :=
    ticks_sim header count hcount nb.layers hlenb hvalnotes
      (nb.calculate_length.toNat + 1) 0 (-1)
      (List.replicate header.layer_count.toNat (Layer.from_format header.format))
      (by rw [List.length_replicate, hcnt])
      (by norm_num) (by norm_num)
      (by push_cast; omega)
  have hencT := encodeLayerTable_eq header.format.version count nb.layers hvalp
  have hbase' : List.Forall₂ (GridRel (Layer.from_format header.format) 0 0)
      nb.layers
      (List.replicate header.layer_count.toNat (Layer.from_format header.format)) := by
    rw [hcnt]
    exact GridRel_base (Layer.from_format header.format)
      (from_format_notes header.format) 0 nb.layers
  have hrel := updRange_rel (Layer.from_format header.format) 0
    (nb.calculate_length.toNat + 1) 0 le_rfl nb.layers _ hbase'
  rw [show (0 : Int) + ((nb.calculate_length.toNat + 1 : Nat) : Int) =
      nb.calculate_length + 1 from by push_cast; omega] at hrel
  have hout : ∀ le ∈ nb.layers, ∀ k : Int,
      ¬(0 ≤ k ∧ k < nb.calculate_length + 1) → NMap.get? le.notes k = none := by
    intro le hle k hk
    apply get?_eq_none_outside
    intro p hp
    have h1 := hentry le hle p hp
    have h2 := hkeyle le hle p hp
    omega
  have hPlen : (updRange
      (List.replicate header.layer_count.toNat (Layer.from_format header.format))
      nb.layers (nb.calculate_length.toNat + 1) 0).length = nb.layers.length :=
    (List.Forall₂.length_eq hrel).symm
  have hPmeta : ∀ l ∈ updRange
      (List.replicate header.layer_count.toNat (Layer.from_format header.format))
      nb.layers (nb.calculate_length.toNat + 1) 0,
      (¬ 4 ≤ header.format.version → l.locked = none) ∧
      (¬ 2 ≤ header.format.version → l.stereo = none) := by
    intro l hl
    obtain ⟨le, hle, hpair⟩ := forall₂_mem_right hrel l hl
    obtain ⟨hn, hlk, hvo, hst, -⟩ := hpair
    exact ⟨fun h4 => by rw [hlk]; exact from_format_locked header.format h4,
      fun h2 => by rw [hst]; exact from_format_stereo header.format h2⟩
  refine ⟨gridB ++ (i16Bytes 0 ++ (nb.layers.map (layerWire header.format.version)).flatten),
    List.zipWith withMeta
      (updRange
        (List.replicate header.layer_count.toNat (Layer.from_format header.format))
        nb.layers (nb.calculate_length.toNat + 1) 0)
      nb.layers, ?_, ?_, ?_⟩
  · unfold NoteBlocks.encode
    rw [hencG, exceptBind_ok, hencT, exceptBind_ok]
  · intro r
    unfold NoteBlocks.decode
    dsimp only
    rw [show (gridB ++ (i16Bytes 0 ++
        (nb.layers.map (layerWire header.format.version)).flatten)) ++ r =
        gridB ++ (i16Bytes 0 ++
          ((nb.layers.map (layerWire header.format.version)).flatten ++ r)) from by
      simp [List.append_assoc]]
    rw [hdecG _ ((nb.layers.map (layerWire header.format.version)).flatten ++ r)
      (by simp only [List.length_append, i16Bytes_length]; omega)]
    dsimp only
    rw [decodeLayerTable_roundtrip header.format.version count nb.layers _
      hvalp hPlen hPmeta r]
  · exact final_equiv (Layer.from_format header.format) (nb.calculate_length + 1)
      nb.layers _ hrel hout

/-- C1 (amended): for every validly constructed song whose format is either
the legacy format or an extended format of version ≥ 3, decoding the bytes
produced by encode succeeds, consumes the whole stream, and yields a song
equal field-for-field to the original: headers and custom instruments
exactly, layers pairwise with equal metadata and equal note
presence/absence (and content) at every (tick, layer) coordinate.  (The
unamended claim, over all formats, is false: for extended versions 1-2 the
header decoder consumes a song-length field that encode never wrote, see
the counterexample.) -/
theorem nbs_roundtrip (song : Nbs) (hv : validNbs song = true)
    (hfm : song.header.format = .noteBlockStudio ∨ 3 ≤ song.header.format.version) :
    ∃ bs, Nbs.encode song = .ok bs ∧
      ∃ song', Nbs.decode bs = .ok song' [] ∧ Nbs.equivN song' song := by
  unfold validNbs at hv
  simp only [Bool.and_eq_true, and_assoc, beq_iff_eq] at hv
  obtain ⟨hvh, hlc, hmatch, hvci⟩ := hv
  cases hcount : song.header.getVannilaInstrumentCount with
  | error e => rw [hcount] at hmatch; simp at hmatch
  | ok count =>
  rw [hcount] at hmatch
  dsimp only at hmatch
  unfold Nbs.format at hmatch
  have hlcr : i16Range song.header.layer_count = true := by
    unfold validHeader validHeaderCommon at hvh
    simp only [Bool.and_eq_true, and_assoc] at hvh
    exact hvh.1
  have hlenb : song.noteblocks.layers.length ≤ 32767 := by
    unfold i16Range at hlcr
    simp only [Bool.and_eq_true, decide_eq_true_eq] at hlcr
    omega
  obtain ⟨hb, hencH, hdecH⟩ := header_roundtrip song.header hvh hfm
  obtain ⟨gb, outLayers, hencG, hdecG, hequiv⟩ :=
    noteblocks_roundtrip song.header count hcount song.noteblocks hlc hlenb hmatch
  obtain ⟨cb, hencC, hdecC⟩ := customInstruments_roundtrip song.custom_instruments hvci
  refine ⟨hb ++ (gb ++ cb), ?_, ?_⟩
  · unfold Nbs.encode Nbs.format
    rw [hencH, exceptBind_ok, hencG, exceptBind_ok, hencC, exceptBind_ok]
  · refine ⟨{ header := song.header
              noteblocks := { layers := outLayers }
              custom_instruments := song.custom_instruments }, ?_, ?_⟩
    · have hd : Nbs.decode ((hb ++ (gb ++ cb)) ++ []) =
          .ok { header := song.header
                noteblocks := { layers := outLayers }
                custom_instruments := song.custom_instruments } [] := by
        rw [show (hb ++ (gb ++ cb)) ++ [] = hb ++ (gb ++ (cb ++ [])) from by simp]
        unfold Nbs.decode
        rw [Decoder.bind_ok (hdecH (gb ++ (cb ++ [])))]
        rw [Decoder.bind_ok (hdecG (cb ++ []))]
        rw [Decoder.bind_ok (hdecC [])]
        rfl
      rw [List.append_nil] at hd
      exact hd
    · exact ⟨rfl, hequiv, rfl⟩

/-! ### Concrete songs: the version-2 counterexample and a legacy witness -/

def noteV2 : Note :=
  { instrument := Instrument.vanilla 0
    key := 33
    velocity := none
    panning := none
    pitch := none }

def layV2 : Layer :=
  { name := []
    locked := none
    volume := some 100
    stereo := some 100
    notes := ([(0, noteV2)] : List (Int × Note)) }

def hdrV2 : Header :=
  { old_song_length := 0
    version_number := some 2
    vannila_instrument_count := some 16
    song_length := none
    layer_count := 1
    song_name := []
    song_author := []
    original_song_author := []
    song_description := []
    song_tempo := 1000
    auto_saving := false
    auto_saving_duration := 0
    time_signature := 4
    minutes_spent := 0
    left_clicks := 0
    right_clicks := 0
    noteblocks_added := 0
    noteblocks_removed := 0
    imported_file_name := []
    is_loop := some false
    max_loop_count := some 0
    loop_start_tick := some 0
    format := NbsFormat.openNoteBlockStudio 2 }

/-- A fully valid version-2 extended song: one layer, one note at tick 0. -/
def exSongV2 : Nbs :=
  { header := hdrV2
    noteblocks := { layers := [layV2] }
    custom_instruments := { instruments := [] } }

/-- The bytes `Nbs::encode` produces for `exSongV2`. -/
def exSongV2Bytes : Bytes :=
  [0, 0, 2, 16, 1, 0, 0, 0, 0, 0, 0, 0, 0, 0, 0, 0, 0, 0, 0, 0, 0, 0, 232, 3,
   0, 0, 4, 0, 0, 0, 0, 0, 0, 0, 0, 0, 0, 0, 0, 0, 0, 0, 0, 0, 0, 0, 0, 0, 0,
   0, 0, 0, 0, 0, 0, 1, 0, 1, 0, 0, 33, 0, 0, 0, 0, 0, 0, 0, 0, 100, 100, 0]

def layLeg : Layer :=
  { name := []
    locked := none
    volume := some 100
    stereo := none
    notes := ([(0, noteV2)] : List (Int × Note)) }

def hdrLeg : Header :=
  { old_song_length := 5
    version_number := none
    vannila_instrument_count := none
    song_length := none
    layer_count := 1
    song_name := []
    song_author := []
    original_song_author := []
    song_description := []
    song_tempo := 1000
    auto_saving := false
    auto_saving_duration := 0
    time_signature := 4
    minutes_spent := 0
    left_clicks := 0
    right_clicks := 0
    noteblocks_added := 0
    noteblocks_removed := 0
    imported_file_name := []
    is_loop := none
    max_loop_count := none
    loop_start_tick := none
    format := NbsFormat.noteBlockStudio }

/-- A fully valid legacy-format song: one layer, one note at tick 0. -/
def exSongLegacy : Nbs :=
  { header := hdrLeg
    noteblocks := { layers := [layLeg] }
    custom_instruments := { instruments := [] } }

/-- C1 counterexample: a fully valid extended version-2 song encodes
successfully, but decoding the encoder's own output fails with an io error:
`Header::decode` reads a 16-bit song-length field for every new-format
version although `Header::encode` writes one only for version ≥ 3, so the
decoder consumes two bytes of the layer count and the stream runs out
early.  `decode(encode(song)) == song` therefore fails for this song. -/
theorem nbs_roundtrip_v2_counterexample :
    validNbs exSongV2 = true ∧
    exSongV2.header.format.version = 2 ∧
    Nbs.encode exSongV2 = .ok exSongV2Bytes ∧
    Nbs.decode exSongV2Bytes = .err .ioError :=
  ⟨by decide, rfl, by rfl, by rfl⟩

/-- C1 witness: the amended round trip applied to a concrete valid
legacy-format song. -/
theorem nbs_roundtrip_witness :
    validNbs exSongLegacy = true ∧
    (∃ bs, Nbs.encode exSongLegacy = .ok bs ∧
      ∃ song', Nbs.decode bs = .ok song' [] ∧ Nbs.equivN song' exSongLegacy) :=
  ⟨by decide, nbs_roundtrip exSongLegacy (by decide) (Or.inl rfl)⟩
